import Mathlib

/-!
# Blood Donation Management System: front-end script

A shallow embedding of `static/script.js`.  The page, its forms and the
local storage are explicit values; every function of the script that changes
them becomes a function from the old value to the new one, and code that can
throw returns an `Except` or the exception next to the state it reached.

Facilities of the browser that the script calls but does not define are
arguments of the functions that call them: `toLowerCase` for
`performSearch`, and for `loadFormDrafts` a `Host` made of the JSON reader
and the selector engine.  The statements about these functions hold for
every such argument.  A reference host, `refHost`, is defined for the part
of JSON and of the selector syntax that the drafts use; it serves where a
statement needs the host to behave as browsers do.

Definitions come first, statements after them.
-/

namespace BloodDonation

/-! ## Strings as JavaScript sees them -/

/-- UTF-16 code units taken by one character: two outside the basic plane. -/
def utf16Units (c : Char) : Nat :=
  if c.toNat < 65536 then 1 else 2

/-- The `length` property of a string: its number of UTF-16 code units. -/
def jsLength (s : String) : Nat :=
  (s.data.map utf16Units).sum

/-- Whether the pattern is read at the very start of the text. -/
def startsWith : List Char → List Char → Bool
  | _, [] => true
  | [], _ :: _ => false
  | c :: cs, p :: ps => c == p && startsWith cs ps

/-- Whether the pattern is read somewhere in the text. -/
def includesChars : List Char → List Char → Bool
  | [], q => startsWith [] q
  | c :: cs, q => startsWith (c :: cs) q || includesChars cs q

/-- `text.includes(query)`. -/
def includes (text query : String) : Bool :=
  includesChars text.data query.data

/-- `parts.join(sep)` on an array of strings. -/
def jsJoin (sep : String) : List String → String
  | [] => ""
  | [x] => x
  | x :: y :: rest => x ++ sep ++ jsJoin sep (y :: rest)

/-- Lower-casing of the letters `A` to `Z`; on text made of ASCII characters
this is what `toLowerCase` returns. -/
def asciiLower (s : String) : String :=
  String.mk (s.data.map Char.toLower)

/-- Whether every character of the string is an ASCII character. -/
def isAscii (s : String) : Bool :=
  s.data.all (fun c => c.toNat < 128)

/-! ## Search filter (`performSearch`) -/

/-- What `performSearch` reads and writes of an element of the document. -/
structure Element where
  textContent : String
  display : String
  deriving DecidableEq, Repr

/-- The body of the `forEach` callback of `performSearch`, for one matched
element. -/
def filterElement (toLowerCase : String → String) (query : String) (result : Element) : Element :=
  let text := toLowerCase result.textContent
  let isVisible := includes text (toLowerCase query)
  { result with display := if isVisible then "" else "none" }

/-- `performSearch(query, target)`.  The document is the list of its elements
and `target` the selector, given as the test of which elements it matches. -/
def performSearch (toLowerCase : String → String) (query : String)
    (target : Element → Bool) (document : List Element) : List Element :=
  if jsLength query < 2 then document
  else document.map (fun result => if target result then filterElement toLowerCase query result else result)

/-! ## Blood group styling (`getBloodGroupClass`, `validateBloodGroup`) -/

/-- The values a property read on an object literal of strings can give. -/
inductive JsValue where
  | undefined
  | str (s : String)
  | inherited (name : String)
  deriving DecidableEq, Repr

/-- The property names every object inherits from `Object.prototype`. -/
def objectPrototypeKeys : List String :=
  ["constructor", "__defineGetter__", "__defineSetter__", "hasOwnProperty",
   "__lookupGetter__", "__lookupSetter__", "isPrototypeOf", "propertyIsEnumerable",
   "toString", "valueOf", "__proto__", "toLocaleString"]

/-- `obj[key]` on an object literal whose own properties are strings: the own
property when there is one, else the member inherited from
`Object.prototype`, else `undefined`. -/
def getProperty (own : List (String × String)) (key : String) : JsValue :=
  match own.lookup key with
  | some v => JsValue.str v
  | none => if key ∈ objectPrototypeKeys then JsValue.inherited key else JsValue.undefined

/-- Truthiness: `undefined` and the empty string are falsy; functions and
objects are truthy. -/
def truthy : JsValue → Bool
  | JsValue.undefined => false
  | JsValue.str s => s != ""
  | JsValue.inherited _ => true

/-- The object literal `bloodGroupClasses`. -/
def bloodGroupClasses : List (String × String) :=
  [("A+", "bg-danger"), ("A-", "bg-danger"), ("B+", "bg-primary"), ("B-", "bg-primary"),
   ("AB+", "bg-success"), ("AB-", "bg-success"), ("O+", "bg-warning"), ("O-", "bg-warning")]

/-- `getBloodGroupClass(bloodGroup)`. -/
def getBloodGroupClass (bloodGroup : String) : JsValue :=
  let v := getProperty bloodGroupClasses bloodGroup
  if truthy v then v else JsValue.str "bg-secondary"

/-- The array `validGroups`. -/
def validGroups : List String :=
  ["A+", "A-", "B+", "B-", "AB+", "AB-", "O+", "O-"]

/-- `validateBloodGroup(bloodGroup)`. -/
def validateBloodGroup (bloodGroup : String) : Bool :=
  validGroups.contains bloodGroup

/-! ## CSV export (`exportToCSV`) -/

/-- The file `exportToCSV` hands to the browser for download. -/
structure Download where
  filename : String
  mimeType : String
  content : String
  deriving DecidableEq, Repr

/-- `exportToCSV(headers, data)`: the text is accumulated row by row. -/
def exportToCSV (headers : List String) (data : List (List String)) : Download :=
  let csvContent := data.foldl (fun acc row => acc ++ (jsJoin "," row ++ "\n"))
    (jsJoin "," headers ++ "\n")
  { filename := "blood_donation_data.csv", mimeType := "text/csv", content := csvContent }

/-- The lines of the rows as the specification words them: for each row in
order, its cells joined by commas, then a line feed. -/
def rowsText : List (List String) → String
  | [] => ""
  | row :: rows => jsJoin "," row ++ "\n" ++ rowsText rows

/-- The CSV text as the specification words it: the header line followed by
the lines of the rows. -/
def csvText (headers : List String) (rows : List (List String)) : String :=
  jsJoin "," headers ++ "\n" ++ rowsText rows

/-! ## Local storage -/

/-- The content of `localStorage`: its keys with their values. -/
abbrev Storage := List (String × String)

/-- `localStorage.getItem(key)`; `none` is `null`. -/
def getItem (ls : Storage) (key : String) : Option String :=
  ls.lookup key

/-- `localStorage.setItem(key, value)`: the value of an existing key is
replaced, a new key is added. -/
def setItem (ls : Storage) (key value : String) : Storage :=
  if ls.any (fun e => e.1 == key) then
    ls.map (fun e => if e.1 == key then (key, value) else e)
  else ls ++ [(key, value)]

/-- `localStorage.removeItem(key)`. -/
def removeItem (ls : Storage) (key : String) : Storage :=
  ls.filter (fun e => !(e.1 == key))

/-! ## Forms -/

/-- A text input of a form: its `name` attribute, its value, and its `id`
attribute; an attribute the element does not have is the empty string.  The
value of a text input has no line break in it (`ValidValues` below). -/
structure Control where
  name : String
  value : String
  id : String
  deriving DecidableEq, Repr

/-- A form: its `id` attribute (the empty string when it has none) and its
controls, all text inputs, in document order. -/
structure Form where
  id : String
  controls : List Control
  deriving DecidableEq, Repr

/-- The controls that a property read on the form element finds before any
property of the element itself: those whose `name` or `id` attribute is the
property name. -/
def namedControls (controls : List Control) (property : String) : List Control :=
  controls.filter (fun c => c.name == property || c.id == property)

/-- The expression `form.id || 'default'` as the template string prints it.
Without a control of that name the read gives the `id` attribute, and the
empty string is falsy.  With one such control it gives that element, and
with several their list; both are truthy objects, printed by their class. -/
def formId (form : Form) : String :=
  match namedControls form.controls "id" with
  | [] => if form.id = "" then "default" else form.id
  | [_] => "[object HTMLInputElement]"
  | _ :: _ :: _ => "[object RadioNodeList]"

/-- The template string for the storage key of a form identifier. -/
def draftKey (formId : String) : String :=
  "form_draft_" ++ formId

/-- `new FormData(form).entries()`: name and value of every control that has
a name, in document order. -/
def formDataEntries (form : Form) : List (String × String) :=
  (form.controls.filter (fun c => c.name != "")).map (fun c => (c.name, c.value))

/-! ## Objects with string members -/

/-- An object whose members are strings: its own properties in the order
`Object.keys` and `JSON.stringify` list them. -/
abbrev JsObject := List (String × String)

/-- Value of a run of decimal digits. -/
def digitsValue (cs : List Char) : Nat :=
  cs.foldl (fun n c => 10 * n + (c.toNat - 48)) 0

/-- The array index a property key stands for, if any: a decimal numeral
without a superfluous leading zero, below `2^32 - 1`. -/
def arrayIndex (key : String) : Option Nat :=
  let cs := key.data
  if cs.all Char.isDigit && !cs.isEmpty && (cs.head? != some '0' || cs.length == 1)
      && decide (digitsValue cs < 4294967295) then
    some (digitsValue cs)
  else none

/-- Place of a new array-index property: after the indices up to its own,
before everything else. -/
def insertIndex (n : Nat) (e : String × String) : JsObject → JsObject
  | [] => [e]
  | h :: t =>
    match arrayIndex h.1 with
    | some m => if m ≤ n then h :: insertIndex n e t else e :: h :: t
    | none => e :: h :: t

/-- Creating or overwriting an own property: an existing key keeps its
place; a new array index joins the indices in ascending order, any other new
key goes last. -/
def defineOwn (o : JsObject) (key value : String) : JsObject :=
  if o.any (fun e => e.1 == key) then
    o.map (fun e => if e.1 == key then (key, value) else e)
  else
    match arrayIndex key with
    | some n => insertIndex n (key, value) o
    | none => o ++ [(key, value)]

/-- The assignment `obj[key] = value` of a string to an object created by
`{}`: the key `__proto__` reaches the setter inherited from
`Object.prototype`, which ignores a string. -/
def setProperty (o : JsObject) (key value : String) : JsObject :=
  if key = "__proto__" then o else defineOwn o key value

/-! ## JSON text -/

/-- A hexadecimal digit, lower case. -/
def hexDigit (n : Nat) : Char :=
  if n < 10 then Char.ofNat (48 + n) else Char.ofNat (87 + n)

/-- How `JSON.stringify` writes one character inside a string. -/
def escapeChar (c : Char) : List Char :=
  if c = '"' then ['\\', '"']
  else if c = '\\' then ['\\', '\\']
  else if c = '\x08' then ['\\', 'b']
  else if c = '\x0c' then ['\\', 'f']
  else if c = '\n' then ['\\', 'n']
  else if c = '\r' then ['\\', 'r']
  else if c = '\t' then ['\\', 't']
  else if c.toNat < 32 then ['\\', 'u', '0', '0', hexDigit (c.toNat / 16), hexDigit (c.toNat % 16)]
  else [c]

/-- A string as `JSON.stringify` writes it, quotes included. -/
def quoteJson (s : String) : List Char :=
  '"' :: (s.data.map escapeChar).flatten ++ ['"']

/-- The members of an object, comma separated. -/
def membersJson : JsObject → List Char
  | [] => []
  | [(k, v)] => quoteJson k ++ ':' :: quoteJson v
  | (k, v) :: e :: rest => quoteJson k ++ ':' :: quoteJson v ++ ',' :: membersJson (e :: rest)

/-- `JSON.stringify(obj)` for an object whose members are strings. -/
def jsonStringify (o : JsObject) : String :=
  String.mk ('\x7b' :: membersJson o ++ ['\x7d'])

/-! ## The host: JSON reader and selector engine -/

/-- What `loadFormDrafts` makes of `JSON.parse(text)`: the call throws; or it
gives `null`, on which `Object.keys` throws; or it gives a value whose own
enumerable keys, in `Object.keys` order, come with the strings their members
are assigned as. -/
inductive Parsed where
  | syntaxError
  | null
  | entries (o : JsObject)
  deriving DecidableEq, Repr

/-- The two facilities of the browser that `loadFormDrafts` calls: the JSON
reader, and the selector engine, which turns a selector text into the test
of the elements it matches, or `none` when it rejects the text with a
`SyntaxError`. -/
structure Host where
  jsonParse : String → Parsed
  selector : String → Option (Control → Bool)

/-- The template string of the selector for a field name. -/
def nameSelectorText (key : String) : String :=
  "[name=\"" ++ key ++ "\"]"

/-- The host reads the selector built for `key` as: the elements whose name
is `key`. -/
def SelectsName (host : Host) (key : String) : Prop :=
  ∃ p, host.selector (nameSelectorText key) = some p ∧ ∀ c : Control, p c = (c.name == key)

/-- White space between JSON tokens. -/
def isJsonSpace (c : Char) : Bool :=
  c == ' ' || c == '\t' || c == '\n' || c == '\r'

/-- Drop leading white space. -/
def skipSpace : List Char → List Char
  | [] => []
  | c :: cs => if isJsonSpace c then skipSpace cs else c :: cs

/-- Value of a hexadecimal digit. -/
def hexValue (c : Char) : Option Nat :=
  if 48 ≤ c.toNat ∧ c.toNat ≤ 57 then some (c.toNat - 48)
  else if 97 ≤ c.toNat ∧ c.toNat ≤ 102 then some (c.toNat - 87)
  else if 65 ≤ c.toNat ∧ c.toNat ≤ 70 then some (c.toNat - 55)
  else none

/-- The character a two-character escape stands for. -/
def unescapeChar (e : Char) : Option Char :=
  if e = '"' then some '"'
  else if e = '\\' then some '\\'
  else if e = '/' then some '/'
  else if e = 'b' then some '\x08'
  else if e = 'f' then some '\x0c'
  else if e = 'n' then some '\n'
  else if e = 'r' then some '\r'
  else if e = 't' then some '\t'
  else none

/-- The code unit four hexadecimal digits stand for, unless it is half of a
surrogate pair. -/
def unicodeEscape (a b c d : Char) : Option Char :=
  match hexValue a, hexValue b, hexValue c, hexValue d with
  | some w, some x, some y, some z =>
    let n := ((w * 16 + x) * 16 + y) * 16 + z
    if 55296 ≤ n ∧ n < 57344 then none else some (Char.ofNat n)
  | _, _, _, _ => none

/-- Read a JSON string from just after its opening quote: its characters and
the text after its closing quote. -/
def readString : List Char → Option (List Char × List Char)
  | [] => none
  | c :: cs =>
    if c = '"' then some ([], cs)
    else if c = '\\' then
      match cs with
      | [] => none
      | e :: rest =>
        if e = 'u' then
          match rest with
          | a :: b :: c2 :: d :: rest2 =>
            match unicodeEscape a b c2 d with
            | some ch => (readString rest2).map (fun r => (ch :: r.1, r.2))
            | none => none
          | _ => none
        else
          match unescapeChar e with
          | some ch => (readString rest).map (fun r => (ch :: r.1, r.2))
          | none => none
    else if c.toNat < 32 then none
    else (readString cs).map (fun r => (c :: r.1, r.2))

/-- Skip white space and read the given character. -/
def expect (ch : Char) (cs : List Char) : Option (List Char) :=
  match skipSpace cs with
  | [] => none
  | c :: rest => if c = ch then some rest else none

/-- Read a quoted string, white space allowed before it. -/
def readQuoted (cs : List Char) : Option (String × List Char) :=
  match expect '"' cs with
  | none => none
  | some cs1 => (readString cs1).map (fun r => (String.mk r.1, r.2))

/-- Read one member `"key" : "value"` of an object. -/
def readMember (cs : List Char) : Option ((String × String) × List Char) :=
  match readQuoted cs with
  | none => none
  | some (k, cs1) =>
    match expect ':' cs1 with
    | none => none
    | some cs2 => (readQuoted cs2).map (fun r => ((k, r.1), r.2))

/-- Read the members of an object up to its closing brace, creating the
properties in the order of the text. -/
def readMembers : Nat → List Char → JsObject → Option (JsObject × List Char)
  | 0, _, _ => none
  | fuel + 1, cs, acc =>
    match readMember cs with
    | none => none
    | some (kv, rest) =>
      match skipSpace rest with
      | [] => none
      | c :: rest2 =>
        if c = ',' then readMembers fuel rest2 (defineOwn acc kv.1 kv.2)
        else if c = '\x7d' then some (defineOwn acc kv.1 kv.2, rest2)
        else none

/-- Read the elements of an array of strings up to its closing bracket; the
element at index `i` is the property `i`. -/
def readElements : Nat → List Char → JsObject → Option (JsObject × List Char)
  | 0, _, _ => none
  | fuel + 1, cs, acc =>
    match readQuoted cs with
    | none => none
    | some (v, rest) =>
      match skipSpace rest with
      | [] => none
      | c :: rest2 =>
        if c = ',' then readElements fuel rest2 (acc ++ [(toString acc.length, v)])
        else if c = ']' then some (acc ++ [(toString acc.length, v)], rest2)
        else none

/-- The value is kept when only white space follows it. -/
def atEnd (rest : List Char) (value : Parsed) : Parsed :=
  if skipSpace rest = [] then value else Parsed.syntaxError

/-- A reference JSON reader.  It reads the JSON texts that are an object with
string members, an array of strings, or `null`, as `JSON.parse` does; it
reports every other text as malformed, among them the JSON texts with
numbers, booleans or nested values, which are not used here. -/
def jsonParseRef (text : String) : Parsed :=
  match skipSpace text.data with
  | [] => Parsed.syntaxError
  | c :: cs =>
    if c = '\x7b' then
      match skipSpace cs with
      | [] => Parsed.syntaxError
      | c1 :: cs1 =>
        if c1 = '\x7d' then atEnd cs1 (Parsed.entries [])
        else
          match readMembers cs.length cs [] with
          | some (o, rest) => atEnd rest (Parsed.entries o)
          | none => Parsed.syntaxError
    else if c = '[' then
      match skipSpace cs with
      | [] => Parsed.syntaxError
      | c1 :: cs1 =>
        if c1 = ']' then atEnd cs1 (Parsed.entries [])
        else
          match readElements cs.length cs [] with
          | some (o, rest) => atEnd rest (Parsed.entries o)
          | none => Parsed.syntaxError
    else if c = 'n' then
      match cs with
      | 'u' :: 'l' :: 'l' :: rest => atEnd rest Parsed.null
      | _ => Parsed.syntaxError
    else Parsed.syntaxError

/-- Characters that stand for themselves inside a double-quoted string of a
selector: all but the quote, the backslash, the line breaks and NUL. -/
def plainChar (c : Char) : Bool :=
  !(c == '"' || c == '\\' || c == '\n' || c == '\r' || c == '\x0c' || c == '\x00')

/-- A reference selector reader.  It reads `[name="v"]` with `v` made of plain
characters as the test for the name `v`, as browsers do; it rejects every
other text, among them `[name="a"b"]`, which browsers reject too, and
selectors of other shapes, which are not used here. -/
def selectorRef (text : String) : Option (Control → Bool) :=
  match text.data with
  | '[' :: 'n' :: 'a' :: 'm' :: 'e' :: '=' :: '"' :: rest =>
    let v := rest.take (rest.length - 2)
    if rest.drop (rest.length - 2) = ['"', ']'] ∧ v.all plainChar then
      some (fun c => c.name == String.mk v)
    else none
  | _ => none

/-- The reference host. -/
def refHost : Host :=
  { jsonParse := jsonParseRef, selector := selectorRef }

/-! ## Form drafts (`saveFormDraft`, `loadFormDrafts`, `clearFormDraft`) -/

/-- An exception of the script. -/
inductive JsError where
  | syntaxError (what : String)
  | typeError (what : String)
  | failure (what : String)
  deriving DecidableEq, Repr

/-- A call of `showNotification(message, type)`. -/
structure Notification where
  message : String
  type : String
  deriving DecidableEq, Repr

/-- The loop of `saveFormDraft` over the entries: `draft[key] = value`
starting from `{}`. -/
def draftOf (form : Form) : JsObject :=
  (formDataEntries form).foldl (fun draft e => setProperty draft e.1 e.2) []

/-- `saveFormDraft(form)`. -/
def saveFormDraft (form : Form) (ls : Storage) : Storage :=
  setItem ls (draftKey (formId form)) (jsonStringify (draftOf form))

/-- The text a text input keeps of the text it is given: the line feeds and
carriage returns are dropped. -/
def stripNewlines (s : String) : String :=
  String.mk (s.data.filter (fun c => !(c == '\n' || c == '\r')))

/-- The values of the controls are values text inputs can hold. -/
def ValidValues (controls : List Control) : Prop :=
  ∀ c ∈ controls, stripNewlines c.value = c.value

/-- `input.value = v` on the element `querySelector` returns: the first
control the selector matches; nothing is assigned when there is none. -/
def assignFirst (p : Control → Bool) (v : String) : List Control → List Control
  | [] => []
  | c :: cs =>
    if p c then { c with value := stripNewlines v } :: cs else c :: assignFirst p v cs

/-- The loop over `Object.keys(draftData)`: the controls as they stand when
the loop ends, and the exception that ended it, if one did.  The read
`form.querySelector` gives the method unless a control has that name; the
call of a control is a `TypeError`.  The method throws a `SyntaxError` on a
selector text the host rejects. -/
def applyEntries (host : Host) : List (String × String) → List Control → List Control × Option JsError
  | [], cs => (cs, none)
  | (key, value) :: rest, cs =>
    match namedControls cs "querySelector" with
    | _ :: _ => (cs, some (JsError.typeError "form.querySelector is not a function"))
    | [] =>
      match host.selector (nameSelectorText key) with
      | none => (cs, some (JsError.syntaxError (nameSelectorText key)))
      | some p => applyEntries host rest (assignFirst p value cs)

/-- The body of the `try` block up to the notification. -/
def tryBlock (host : Host) (form : Form) (draft : String) : Form × Option JsError :=
  match host.jsonParse draft with
  | Parsed.syntaxError => (form, some (JsError.syntaxError draft))
  | Parsed.null => (form, some (JsError.typeError "Object.keys"))
  | Parsed.entries o =>
    let r := applyEntries host o form.controls
    ({ form with controls := r.1 }, r.2)

/-- What the callback of `loadFormDrafts` did for one form. -/
structure LoadOutcome where
  form : Form
  notified : Bool
  logged : Option JsError
  deriving DecidableEq, Repr

/-- The callback of `loadFormDrafts` for one form.  An exception of the `try`
block is caught and logged; the result is `Except.ok` as the callback
itself throws nothing. -/
def loadForm (host : Host) (ls : Storage) (form : Form) : Except JsError LoadOutcome :=
  match getItem ls (draftKey (formId form)) with
  | none => Except.ok { form := form, notified := false, logged := none }
  | some draft =>
    if draft = "" then Except.ok { form := form, notified := false, logged := none }
    else
      match tryBlock host form draft with
      | (form1, none) => Except.ok { form := form1, notified := true, logged := none }
      | (form1, some e) => Except.ok { form := form1, notified := false, logged := some e }

/-- `loadFormDrafts()` on the forms of the page, in document order: the
outcome for each form, or the exception that escaped. -/
def loadFormDrafts (host : Host) (ls : Storage) : List Form → Except JsError (List LoadOutcome)
  | [] => Except.ok []
  | form :: forms =>
    match loadForm host ls form with
    | Except.error e => Except.error e
    | Except.ok o =>
      match loadFormDrafts host ls forms with
      | Except.error e => Except.error e
      | Except.ok os => Except.ok (o :: os)

/-- The notifications `loadFormDrafts` shows. -/
def loadNotifications (os : List LoadOutcome) : List Notification :=
  (os.filter (fun o => o.notified)).map (fun _ => { message := "Form draft loaded", type := "info" })

/-- `clearFormDraft(formId)`; `none` is the omitted argument. -/
def clearFormDraft (formId : Option String) (ls : Storage) : Storage × Notification :=
  (removeItem ls (draftKey (formId.getD "default")),
   { message := "Form draft cleared", type := "success" })

/-- A form with the same identifier and the same controls, every value
empty. -/
def emptyClone (form : Form) : Form :=
  { form with controls := form.controls.map (fun c => { c with value := "" }) }

/-- The names of the fields of a form, as `FormData` lists them. -/
def fieldNames (form : Form) : List String :=
  (formDataEntries form).map Prod.fst

/-- Every field the saved form had holds, at its place in the loaded form,
the value it had when saved. -/
def Restored (saved loaded : Form) : Prop :=
  ∀ (i : Nat) (c : Control), saved.controls[i]? = some c → c.name ≠ "" →
    loaded.controls[i]? = some c

/-- The draft round trip: `saveFormDraft(form)`, then `loadFormDrafts()` on a
page whose only form is the empty clone of `form`, restores every field. -/
def RoundTrip (host : Host) (form : Form) (ls : Storage) : Prop :=
  ∃ o, loadFormDrafts host (saveFormDraft form ls) [emptyClone form] = Except.ok [o] ∧
    Restored form o.form

/-- A control once the members of an object have been assigned to the
controls of their names. -/
def withDraft (o : JsObject) (c : Control) : Control :=
  match o.lookup c.name with
  | some v => { c with value := stripNewlines v }
  | none => c

/-- The form a round trip gives back: the named fields as they were saved,
the controls without name empty. -/
def restoredForm (form : Form) : Form :=
  { form with
    controls := form.controls.map (fun c => if c.name = "" then { c with value := "" } else c) }

/-- The order of two properties of an object, the first listed before the
second: their keys differ, array indices ascend, and an array index is
never after another key. -/
def KeyOrder (a b : String × String) : Prop :=
  a.1 ≠ b.1 ∧
    match arrayIndex a.1, arrayIndex b.1 with
    | some m, some n => m ≤ n
    | some _, none => True
    | none, some _ => False
    | none, none => True

/-- An object lists its properties in key order. -/
def Canonical (o : JsObject) : Prop :=
  o.Pairwise KeyOrder

/-- Two controls of one name have no name. -/
def DistinctNames (cs : List Control) : Prop :=
  cs.Pairwise (fun a b => a.name = b.name → a.name = "")

/-! ## Example pages -/

/-- A donor form with two named fields. -/
def donorForm : Form :=
  { id := "donor", controls := [⟨"name", "Asha", ""⟩, ⟨"group", "O+", ""⟩] }

/-- A request form. -/
def requestForm : Form :=
  { id := "request", controls := [⟨"units", "2", ""⟩] }

/-- A form without identifier, with a field that has no name. -/
def searchForm : Form :=
  { id := "", controls := [⟨"q", "plasma", "search-box"⟩, ⟨"", "go", ""⟩] }

/-- A form whose two controls share one name. -/
def sharedNameForm : Form :=
  { id := "f", controls := [⟨"x", "a", ""⟩, ⟨"x", "b", ""⟩] }

/-- A form with a field whose name has a double quote in it. -/
def quotedNameForm : Form :=
  { id := "g", controls := [⟨"a\"b", "1", ""⟩, ⟨"c", "2", ""⟩] }

/-- A store with the drafts of the donor form and of the search form, and
with a value for the request form that is not JSON. -/
def corruptStore : Storage :=
  saveFormDraft searchForm (setItem (saveFormDraft donorForm []) "form_draft_request" "\x7boops")

/-- A form with a field named `__proto__`. -/
def protoNameForm : Form :=
  { id := "p", controls := [⟨"__proto__", "1", ""⟩] }

/-- A form with a field named `querySelector`. -/
def methodNameForm : Form :=
  { id := "h", controls := [⟨"querySelector", "1", ""⟩, ⟨"c", "2", ""⟩] }

/-- A form of identifier `donor` with a field named `id`. -/
def idNameForm : Form :=
  { id := "donor", controls := [⟨"id", "7", ""⟩] }

/-- A store with a record under the key that `idNameForm` reads. -/
def idNameStore : Storage :=
  [("form_draft_[object HTMLInputElement]", "\x7b\"id\":\"9\"\x7d")]

/-- A form with a field named `0`. -/
def indexForm : Form :=
  { id := "f", controls := [⟨"0", "a", ""⟩] }

/-- A store where the value for the form `f` is a JSON array. -/
def arrayStore : Storage :=
  [("form_draft_f", "[\"x\"]")]

/-! ## Debounced search input -/

/-- A timer of the host set by the listener: its identifier and the time it
is due. -/
structure Timer where
  id : Nat
  due : Nat
  deriving DecidableEq, Repr

/-- One search input with its listener: the value of the control, the
variable `searchTimeout` (`none` is `undefined`), the pending timers the
listener has set, the next timer identifier of the host, and the calls of
`performSearch` made so far, each with its time and its query. -/
structure SearchInput where
  value : String
  searchTimeout : Option Nat
  timers : List Timer
  nextId : Nat
  passes : List (Nat × String)
  deriving DecidableEq, Repr

/-- `clearTimeout(id)`: a pending timer of that identifier is dropped. -/
def clearTimeout (id : Option Nat) (timers : List Timer) : List Timer :=
  timers.filter (fun tm => !(some tm.id == id))

/-- The control receives `value` at time `t` and the listener runs: the
pending call is cancelled and a new one is set 300 ms later. -/
def inputEvent (t : Nat) (value : String) (s : SearchInput) : SearchInput :=
  { s with
    value := value
    timers := clearTimeout s.searchTimeout s.timers ++ [{ id := s.nextId, due := t + 300 }]
    searchTimeout := some s.nextId
    nextId := s.nextId + 1 }

/-- The host reaches time `now`: every timer due by then runs its callback,
`performSearch(this.value, this.dataset.target)`, and is gone. -/
def runTimers (now : Nat) (s : SearchInput) : SearchInput :=
  { s with
    timers := s.timers.filter (fun tm => !(decide (tm.due ≤ now)))
    passes := s.passes ++ (s.timers.filter (fun tm => decide (tm.due ≤ now))).map (fun _ => (now, s.value)) }

/-- A step of the search input. -/
inductive SearchStep where
  | input (t : Nat) (value : String)
  | timers (now : Nat)
  deriving DecidableEq, Repr

/-- The effect of one step. -/
def searchStep (s : SearchInput) : SearchStep → SearchInput
  | SearchStep.input t value => inputEvent t value s
  | SearchStep.timers now => runTimers now s

/-- The search input when the page is loaded. -/
def freshInput (value : String) (nextId : Nat) : SearchInput :=
  { value := value, searchTimeout := none, timers := [], nextId := nextId, passes := [] }

/-- An input event arriving at time `t`: the host first runs the timers due
by then. -/
def dispatch (s : SearchInput) (e : Nat × String) : SearchInput :=
  inputEvent e.1 e.2 (runTimers e.1 s)

/-- A sequence of input events, each with its time and the value it
leaves in the control. -/
def burst (s : SearchInput) (events : List (Nat × String)) : SearchInput :=
  events.foldl dispatch s

/-- Each event comes less than 300 ms after the one before. -/
def rapid : List (Nat × String) → Prop
  | [] => True
  | [_] => True
  | a :: b :: rest => a.1 ≤ b.1 ∧ b.1 < a.1 + 300 ∧ rapid (b :: rest)

/-- Invariant of the listener: at most one timer is pending, and it is the
one the variable `searchTimeout` names. -/
def OnePending (s : SearchInput) : Prop :=
  s.timers.length ≤ 1 ∧ ∀ tm ∈ s.timers, s.searchTimeout = some tm.id

/-- The state in the middle of a burst whose latest event came at time `t`
with value `v`: no pass yet, and the one pending timer is due at `t + 300`. -/
def Awaiting (s : SearchInput) (t : Nat) (v : String) : Prop :=
  s.value = v ∧ s.passes = [] ∧
    ∃ id, s.timers = [{ id := id, due := t + 300 }] ∧ s.searchTimeout = some id

/-! ## Dashboard counters (`updateDashboardStats`, `updateStatDisplay`) -/

/-- What the refresh reads and writes of an element of the dashboard. -/
structure StatElement where
  id : String
  textContent : String
  transform : String
  deriving DecidableEq, Repr

/-- The dashboard: its elements in document order, the identifiers of the
elements whose scale is due to be reset, and the console. -/
structure Dashboard where
  elements : List StatElement
  resets : List String
  console : List JsError
  deriving DecidableEq, Repr

/-- How `fetch('/api/stats')` followed by `response.json()` ends: with the
decoded body (`none` is `null`, else the members as the strings
`textContent` receives), with a network failure, or with a body that is
not JSON. -/
inductive FetchResult where
  | success (data : Option (List (String × String)))
  | networkFailure (what : String)
  | decodeFailure (what : String)
  deriving DecidableEq, Repr

/-- Text and scale are set on the first element of the identifier. -/
def setStat (elementId value : String) : List StatElement → List StatElement
  | [] => []
  | e :: es =>
    if e.id = elementId then { e with textContent := value, transform := "scale(1.1)" } :: es
    else e :: setStat elementId value es

/-- `updateStatDisplay(elementId, value)`. -/
def updateStatDisplay (elementId value : String) (d : Dashboard) : Dashboard :=
  if d.elements.any (fun e => e.id == elementId) then
    { d with elements := setStat elementId value d.elements, resets := d.resets ++ [elementId] }
  else d

/-- A member of the decoded body as `textContent` receives it: a missing
member is `undefined`, which sets the empty text. -/
def member (data : List (String × String)) (key : String) : String :=
  (data.lookup key).getD ""

/-- The promise chain before `.catch`: the two `then` callbacks. -/
def statsChain (r : FetchResult) (d : Dashboard) : Except JsError Dashboard :=
  match r with
  | FetchResult.networkFailure what => Except.error (JsError.failure what)
  | FetchResult.decodeFailure what => Except.error (JsError.syntaxError what)
  | FetchResult.success none => Except.error (JsError.typeError "total_donors")
  | FetchResult.success (some data) =>
    Except.ok
      (updateStatDisplay "total-requests" (member data "total_requests")
        (updateStatDisplay "total-donations" (member data "total_donations")
          (updateStatDisplay "total-recipients" (member data "total_recipients")
            (updateStatDisplay "total-donors" (member data "total_donors") d))))

/-- `updateDashboardStats()`, given how the fetch ends: the `.catch` callback
logs a rejection, and the chain settles. -/
def updateDashboardStats (r : FetchResult) (d : Dashboard) : Except JsError Dashboard :=
  match statsChain r d with
  | Except.ok d1 => Except.ok d1
  | Except.error e => Except.ok { d with console := d.console ++ [e] }

/-- The text shown by the element of an identifier, if there is one. -/
def statText (d : Dashboard) (elementId : String) : Option String :=
  (d.elements.find? (fun e => e.id == elementId)).map (fun e => e.textContent)

/-! ## Strings -/

theorem startsWith_iff (t q : List Char) : startsWith t q = true ↔ q <+: t := by
  induction t generalizing q with
  | nil => cases q <;> simp [startsWith]
  | cons c cs ih =>
    cases q with
    | nil => simp [startsWith]
    | cons p ps =>
      simp only [startsWith, Bool.and_eq_true, beq_iff_eq, ih, List.cons_prefix_cons]
      constructor
      · rintro ⟨h, h2⟩; exact ⟨h.symm, h2⟩
      · rintro ⟨h, h2⟩; exact ⟨h.symm, h2⟩

theorem includesChars_iff (t q : List Char) : includesChars t q = true ↔ q <:+: t := by
  induction t with
  | nil => cases q <;> simp [includesChars, startsWith]
  | cons c cs ih =>
    simp only [includesChars, Bool.or_eq_true, startsWith_iff, ih, List.infix_cons_iff]

theorem includes_iff (text query : String) :
    includes text query = true ↔ query.data <:+: text.data := by
  simp [includes, includesChars_iff]

/-- Lines of the rows, one after the other. -/
theorem exportToCSV_fold (rows : List (List String)) (acc : String) :
    rows.foldl (fun acc row => acc ++ (jsJoin "," row ++ "\n")) acc = acc ++ rowsText rows := by
  induction rows generalizing acc with
  | nil => simp [rowsText]
  | cons r rs ih => simp [rowsText, ih, String.append_assoc]

/-- C3. The text `exportToCSV` builds is the header cells joined by commas and
a line feed, then for each row in order its cells joined by commas and a
line feed, the cells taken as they are; for the headers Name, Group and
the rows John, A+ and Jane, O- it is the three lines of the
specification. -/
theorem exportToCSV_content (headers : List String) (data : List (List String)) :
    (exportToCSV headers data).content = csvText headers data ∧
    (exportToCSV headers data).filename = "blood_donation_data.csv" ∧
    (exportToCSV ["Name", "Group"] [["John", "A+"], ["Jane", "O-"]]).content
      = "Name,Group\nJohn,A+\nJane,O-\n" := by
  refine ⟨?_, rfl, by decide⟩
  simp [exportToCSV, csvText, exportToCSV_fold]

/-- A query is shorter than two code units when it is empty or is one character
of the basic plane. -/
theorem jsLength_lt_two_iff (query : String) :
    jsLength query < 2 ↔
      query.data = [] ∨ ∃ c : Char, query.data = [c] ∧ c.toNat < 65536 := by
  unfold jsLength
  have hpos : ∀ c : Char, 1 ≤ utf16Units c := by
    intro c; unfold utf16Units; split <;> omega
  cases hq : query.data with
  | nil => simp
  | cons c rest =>
    cases rest with
    | nil =>
      by_cases hc : c.toNat < 65536 <;> simp [utf16Units, hc]
    | cons d rest2 =>
      have h1 := hpos c
      have h2 := hpos d
      simp only [List.map_cons, List.sum_cons, reduceCtorEq, List.cons.injEq, false_or]
      constructor
      · intro h; omega
      · rintro ⟨_, ⟨_, h⟩, _⟩; cases h

theorem performSearch_long (toLowerCase : String → String) (query : String)
    (target : Element → Bool) (document : List Element) (hlen : 2 ≤ jsLength query) :
    performSearch toLowerCase query target document
      = document.map (fun result => if target result then filterElement toLowerCase query result else result) := by
  unfold performSearch
  rw [if_neg (by omega)]

/-- C4. For a query of at least two UTF-16 code units, every element the
target selector matches ends with display `""` exactly when its lower-cased
text contains the lower-cased query, and with display `"none"` exactly
when it does not, whatever its display was; its text is unchanged.  With a
`toLowerCase` that lower-cases ASCII text as usual, the query `o+` shows
the element of text `O+` and hides the one of text `A-`. -/
theorem performSearch_filter (toLowerCase : String → String) (query : String)
    (target : Element → Bool) (document : List Element)
    (hlen : 2 ≤ jsLength query)
    (hascii : ∀ s, isAscii s = true → toLowerCase s = asciiLower s) :
    (performSearch toLowerCase query target document).length = document.length ∧
    (∀ (i : Nat) (e : Element), document[i]? = some e → target e = true →
      ∃ r : Element, (performSearch toLowerCase query target document)[i]? = some r ∧
        r.textContent = e.textContent ∧
        (r.display = "" ↔ (toLowerCase query).data <:+: (toLowerCase e.textContent).data) ∧
        (r.display = "none" ↔ ¬ (toLowerCase query).data <:+: (toLowerCase e.textContent).data)) ∧
    (∀ d1 d2, performSearch toLowerCase "o+" (fun _ => true)
        [{ textContent := "O+", display := d1 }, { textContent := "A-", display := d2 }]
      = [{ textContent := "O+", display := "" }, { textContent := "A-", display := "none" }]) := by
  refine ⟨?_, ?_, ?_⟩
  · rw [performSearch_long _ _ _ _ hlen, List.length_map]
  · intro i e hi ht
    rw [performSearch_long _ _ _ _ hlen, List.getElem?_map, hi]
    refine ⟨filterElement toLowerCase query e, by simp [ht], rfl, ?_, ?_⟩
    · by_cases h : includes (toLowerCase e.textContent) (toLowerCase query) = true
      · simp [filterElement, h, (includes_iff _ _).1 h]
      · have h2 : ¬ (toLowerCase query).data <:+: (toLowerCase e.textContent).data :=
          fun hc => h ((includes_iff _ _).2 hc)
        simp [filterElement, h, h2]
    · by_cases h : includes (toLowerCase e.textContent) (toLowerCase query) = true
      · simp [filterElement, h, (includes_iff _ _).1 h]
      · have h2 : ¬ (toLowerCase query).data <:+: (toLowerCase e.textContent).data :=
          fun hc => h ((includes_iff _ _).2 hc)
        simp [filterElement, h, h2]
  · intro d1 d2
    rw [performSearch_long _ _ _ _ (by decide)]
    simp only [List.map, if_true, filterElement]
    rw [hascii "o+" (by decide), hascii "O+" (by decide), hascii "A-" (by decide)]
    have h1 : includes (asciiLower "O+") (asciiLower "o+") = true := by decide
    have h2 : includes (asciiLower "A-") (asciiLower "o+") = false := by decide
    simp [h1, h2]

/-- Witness of C4: the query `o+` on the elements `O+` and `A-`, the second
one shown and the first hidden before the call. -/
theorem performSearch_filter_witness :
    2 ≤ jsLength "o+" ∧
    performSearch asciiLower "o+" (fun _ => true)
        [{ textContent := "O+", display := "none" }, { textContent := "A-", display := "" }]
      = [{ textContent := "O+", display := "" }, { textContent := "A-", display := "none" }] :=
  ⟨by decide,
   (performSearch_filter asciiLower "o+" (fun _ => true)
      [{ textContent := "O+", display := "none" }, { textContent := "A-", display := "" }]
      (by decide) (fun _ _ => rfl)).2.2 "none" ""⟩

/-- C5. A query of fewer than two UTF-16 code units (the empty string, a
string of one code unit) leaves every element as it was: the document,
displays included, is returned unchanged. -/
theorem performSearch_short_query (toLowerCase : String → String) (query : String)
    (target : Element → Bool) (document : List Element)
    (hlen : jsLength query < 2) :
    performSearch toLowerCase query target document = document := by
  unfold performSearch
  rw [if_pos hlen]

/-- Witness of C5: the one-letter query `o` after a pass that hid `A-`. -/
theorem performSearch_short_query_witness :
    jsLength "o" < 2 ∧
    performSearch asciiLower "o" (fun _ => true)
        [{ textContent := "O+", display := "" }, { textContent := "A-", display := "none" }]
      = [{ textContent := "O+", display := "" }, { textContent := "A-", display := "none" }] :=
  ⟨by decide, performSearch_short_query asciiLower "o" (fun _ => true) _ (by decide)⟩

/-! ## Blood groups -/

theorem validateBloodGroup_iff (g : String) :
    validateBloodGroup g = true ↔ g ∈ validGroups := by
  simp [validateBloodGroup]

theorem getBloodGroupClass_of_valid (g : String) (h : g ∈ validGroups) :
    getBloodGroupClass g = JsValue.str
      (if g = "A+" ∨ g = "A-" then "bg-danger"
       else if g = "B+" ∨ g = "B-" then "bg-primary"
       else if g = "AB+" ∨ g = "AB-" then "bg-success"
       else "bg-warning") := by
  simp only [validGroups, List.mem_cons, List.mem_singleton, List.not_mem_nil, or_false] at h
  rcases h with h | h | h | h | h | h | h | h <;> subst h <;> decide

theorem getBloodGroupClass_of_invalid (g : String) (h : g ∉ validGroups)
    (hp : g ∉ objectPrototypeKeys) :
    getBloodGroupClass g = JsValue.str "bg-secondary" := by
  simp only [validGroups, List.mem_cons, List.mem_singleton, List.not_mem_nil, or_false,
    not_or] at h
  obtain ⟨h1, h2, h3, h4, h5, h6, h7, h8⟩ := h
  have hl : bloodGroupClasses.lookup g = none := by
    have e : ∀ k : String, ¬ g = k → (g == k) = false := fun k hk => by simp [hk]
    simp [bloodGroupClasses, List.lookup, e _ h1, e _ h2, e _ h3, e _ h4, e _ h5, e _ h6,
      e _ h7, e _ h8]
  simp [getBloodGroupClass, getProperty, hl, hp, truthy]

/-- C10. For the string `constructor` the classifier does not return a class
name: the property read finds the member every object inherits, which is
truthy, and returns it, although the validator rejects the string.  For
every string that is not a member name of `Object.prototype` the
classifier returns `bg-secondary` exactly when the validator rejects it,
and the class of its group otherwise. -/
theorem getBloodGroupClass_inherited_key :
    getBloodGroupClass "constructor" = JsValue.inherited "constructor" ∧
    validateBloodGroup "constructor" = false ∧
    getBloodGroupClass "constructor" ≠ JsValue.str "bg-secondary" ∧
    getBloodGroupClass " A+ " = JsValue.str "bg-secondary" ∧
    validateBloodGroup " A+ " = false ∧
    (∀ g, g ∉ objectPrototypeKeys →
      (getBloodGroupClass g = JsValue.str "bg-secondary" ↔ validateBloodGroup g = false) ∧
      (validateBloodGroup g = true →
        getBloodGroupClass g = JsValue.str
          (if g = "A+" ∨ g = "A-" then "bg-danger"
           else if g = "B+" ∨ g = "B-" then "bg-primary"
           else if g = "AB+" ∨ g = "AB-" then "bg-success"
           else "bg-warning"))) := by
  refine ⟨by decide, by decide, by decide, by decide, by decide, ?_⟩
  intro g hp
  by_cases hv : g ∈ validGroups
  · have hc := getBloodGroupClass_of_valid g hv
    have hval := (validateBloodGroup_iff g).2 hv
    refine ⟨?_, fun _ => hc⟩
    rw [hc, hval]
    simp only [validGroups, List.mem_cons, List.mem_singleton, List.not_mem_nil, or_false] at hv
    rcases hv with h | h | h | h | h | h | h | h <;> subst h <;> decide
  · have hc := getBloodGroupClass_of_invalid g hv hp
    have hval : validateBloodGroup g = false := by
      rw [← Bool.not_eq_true, validateBloodGroup_iff]; exact hv
    exact ⟨by simp [hc, hval], fun h => by rw [hval] at h; cases h⟩

/-! ## Dashboard counters -/

/-- C7. When the fetch ends with a network failure or with a body that is not
JSON, the refresh settles without an exception, the elements of the
dashboard (the four counters among them) are exactly as before, no scale
reset is scheduled, and the error is logged. -/
theorem updateDashboardStats_failure (r : FetchResult) (d : Dashboard) (what : String)
    (hr : r = FetchResult.networkFailure what ∨ r = FetchResult.decodeFailure what) :
    ∃ d1, updateDashboardStats r d = Except.ok d1 ∧
      d1.elements = d.elements ∧ d1.resets = d.resets ∧
      (∀ elementId ∈ ["total-donors", "total-recipients", "total-donations", "total-requests"],
        statText d1 elementId = statText d elementId) ∧
      d1.console.length = d.console.length + 1 := by
  rcases hr with h | h <;> subst h <;>
    exact ⟨_, rfl, rfl, rfl, fun _ _ => rfl, by simp⟩

/-- Witness of C7: a dashboard showing the four counters, and a network
failure. -/
theorem updateDashboardStats_failure_witness :
    ∃ d1, updateDashboardStats (FetchResult.networkFailure "offline")
        { elements := [⟨"total-donors", "12", ""⟩, ⟨"total-recipients", "7", ""⟩,
                       ⟨"total-donations", "30", ""⟩, ⟨"total-requests", "4", ""⟩],
          resets := [], console := [] } = Except.ok d1 ∧
      statText d1 "total-donors" = some "12" ∧ statText d1 "total-requests" = some "4" := by
  obtain ⟨d1, h1, h2, _, _, _⟩ := updateDashboardStats_failure
    (FetchResult.networkFailure "offline")
    { elements := [⟨"total-donors", "12", ""⟩, ⟨"total-recipients", "7", ""⟩,
                   ⟨"total-donations", "30", ""⟩, ⟨"total-requests", "4", ""⟩],
      resets := [], console := [] } "offline" (Or.inl rfl)
  exact ⟨d1, h1, by simp [statText, h2], by simp [statText, h2]⟩

/-! ## Association lists: storage and objects -/

theorem lookup_cons_eq (k a b : String) (es : List (String × String)) (h : k = a) :
    List.lookup k ((a, b) :: es) = some b := by
  subst h; simp [List.lookup]

theorem lookup_cons_ne (k a b : String) (es : List (String × String)) (h : k ≠ a) :
    List.lookup k ((a, b) :: es) = List.lookup k es := by
  have h3 : (k == a) = false := by simpa using h
  simp [List.lookup, h3]

theorem replace_cons_eq (k v a b : String) (es : List (String × String)) (h : a = k) :
    ((a, b) :: es).map (fun e => if e.1 == k then (k, v) else e)
      = (k, v) :: es.map (fun e => if e.1 == k then (k, v) else e) := by
  simp [h]

theorem replace_cons_ne (k v a b : String) (es : List (String × String)) (h : a ≠ k) :
    ((a, b) :: es).map (fun e => if e.1 == k then (k, v) else e)
      = (a, b) :: es.map (fun e => if e.1 == k then (k, v) else e) := by
  simp [h]

theorem any_key_cons (k a b : String) (es : List (String × String)) :
    ((a, b) :: es).any (fun e => e.1 == k) = ((a == k) || es.any (fun e => e.1 == k)) := by
  simp only [List.any_cons]

theorem lookup_replace_same (l : List (String × String)) (k v : String)
    (h : l.any (fun e => e.1 == k) = true) :
    (l.map (fun e => if e.1 == k then (k, v) else e)).lookup k = some v := by
  induction l with
  | nil => simp at h
  | cons e es ih =>
    obtain ⟨a, b⟩ := e
    by_cases he : a = k
    · rw [replace_cons_eq k v a b es he, lookup_cons_eq k k v _ rfl]
    · rw [any_key_cons] at h
      have hes : es.any (fun e => e.1 == k) = true := by simpa [he] using h
      rw [replace_cons_ne k v a b es he, lookup_cons_ne k a b _ (fun h => he h.symm), ih hes]

theorem lookup_replace_other (l : List (String × String)) (k v k2 : String) (h : k2 ≠ k) :
    (l.map (fun e => if e.1 == k then (k, v) else e)).lookup k2 = l.lookup k2 := by
  induction l with
  | nil => rfl
  | cons e es ih =>
    obtain ⟨a, b⟩ := e
    by_cases he : a = k
    · rw [replace_cons_eq k v a b es he, lookup_cons_ne k2 k v _ h,
        lookup_cons_ne k2 a b _ (he ▸ h), ih]
    · rw [replace_cons_ne k v a b es he]
      by_cases h2 : k2 = a
      · rw [lookup_cons_eq k2 a b _ h2, lookup_cons_eq k2 a b _ h2]
      · rw [lookup_cons_ne k2 a b _ h2, lookup_cons_ne k2 a b _ h2, ih]

theorem lookup_append_new (l : List (String × String)) (k v k2 : String) :
    (l ++ [(k, v)]).lookup k2
      = match l.lookup k2 with
        | some w => some w
        | none => if k2 = k then some v else none := by
  induction l with
  | nil =>
    by_cases h2 : k2 = k
    · rw [List.nil_append, lookup_cons_eq k2 k v _ h2]; simp [h2]
    · rw [List.nil_append, lookup_cons_ne k2 k v _ h2]; simp [h2]
  | cons e es ih =>
    obtain ⟨a, b⟩ := e
    by_cases h2 : k2 = a
    · rw [List.cons_append, lookup_cons_eq k2 a b _ h2, lookup_cons_eq k2 a b _ h2]
    · rw [List.cons_append, lookup_cons_ne k2 a b _ h2, lookup_cons_ne k2 a b _ h2, ih]

theorem lookup_none_of_not_any (l : List (String × String)) (k : String)
    (h : ¬ l.any (fun e => e.1 == k) = true) : l.lookup k = none := by
  induction l with
  | nil => rfl
  | cons e es ih =>
    obtain ⟨a, b⟩ := e
    rw [any_key_cons] at h
    have ha : a ≠ k := fun hak => h (by simp [hak])
    have hes : ¬ es.any (fun e => e.1 == k) = true := fun hc => h (by simp [hc])
    rw [lookup_cons_ne k a b _ (fun h => ha h.symm), ih hes]

theorem getItem_setItem_same (ls : Storage) (k v : String) :
    getItem (setItem ls k v) k = some v := by
  unfold getItem setItem
  by_cases h : ls.any (fun e => e.1 == k) = true
  · rw [if_pos h]; exact lookup_replace_same ls k v h
  · rw [if_neg h, lookup_append_new, lookup_none_of_not_any ls k h]; simp

theorem getItem_setItem_other (ls : Storage) (k v k2 : String) (h : k2 ≠ k) :
    getItem (setItem ls k v) k2 = getItem ls k2 := by
  unfold getItem setItem
  by_cases ha : ls.any (fun e => e.1 == k) = true
  · rw [if_pos ha]; exact lookup_replace_other ls k v k2 h
  · rw [if_neg ha, lookup_append_new]
    cases List.lookup k2 ls <;> simp [h]

theorem removeItem_cons_eq (k a b : String) (es : Storage) (h : a = k) :
    removeItem ((a, b) :: es) k = removeItem es k := by
  simp [removeItem, List.filter, h]

theorem removeItem_cons_ne (k a b : String) (es : Storage) (h : a ≠ k) :
    removeItem ((a, b) :: es) k = (a, b) :: removeItem es k := by
  have h3 : (a == k) = false := by simpa using h
  simp only [removeItem, List.filter, h3, Bool.not_false]

theorem getItem_removeItem_same (ls : Storage) (k : String) :
    getItem (removeItem ls k) k = none := by
  induction ls with
  | nil => rfl
  | cons e es ih =>
    obtain ⟨a, b⟩ := e
    by_cases he : a = k
    · rw [removeItem_cons_eq k a b es he, ih]
    · rw [removeItem_cons_ne k a b es he]
      unfold getItem at ih ⊢
      rw [lookup_cons_ne k a b _ (fun h => he h.symm), ih]

theorem getItem_removeItem_other (ls : Storage) (k k2 : String) (h : k2 ≠ k) :
    getItem (removeItem ls k) k2 = getItem ls k2 := by
  induction ls with
  | nil => rfl
  | cons e es ih =>
    obtain ⟨a, b⟩ := e
    unfold getItem at ih ⊢
    by_cases he : a = k
    · rw [removeItem_cons_eq k a b es he, lookup_cons_ne k2 a b _ (he ▸ h), ih]
    · rw [removeItem_cons_ne k a b es he]
      by_cases h2 : k2 = a
      · rw [lookup_cons_eq k2 a b _ h2, lookup_cons_eq k2 a b _ h2]
      · rw [lookup_cons_ne k2 a b _ h2, lookup_cons_ne k2 a b _ h2, ih]

theorem draftKey_injective (a b : String) (h : draftKey a = draftKey b) : a = b := by
  unfold draftKey at h
  have h2 := congrArg String.data h
  simp only [String.data_append, List.append_cancel_left_eq] at h2
  exact String.ext h2

/-! ## Form drafts: loading -/

theorem loadForm_total (host : Host) (ls : Storage) (form : Form) :
    ∃ o, loadForm host ls form = Except.ok o := by
  unfold loadForm
  split
  · exact ⟨_, rfl⟩
  · split
    · exact ⟨_, rfl⟩
    · split <;> exact ⟨_, rfl⟩

theorem loadForm_absent (host : Host) (ls : Storage) (form : Form)
    (h : getItem ls (draftKey (formId form)) = none) :
    loadForm host ls form = Except.ok { form := form, notified := false, logged := none } := by
  unfold loadForm
  rw [h]

theorem loadForm_unreadable (host : Host) (ls : Storage) (form : Form) (r : String)
    (h : getItem ls (draftKey (formId form)) = some r)
    (hbad : host.jsonParse r = Parsed.syntaxError ∨ host.jsonParse r = Parsed.null ∨
      host.jsonParse r = Parsed.entries []) :
    ∃ o, loadForm host ls form = Except.ok o ∧ o.form = form := by
  unfold loadForm
  rw [h]
  by_cases hr : r = ""
  · simp [hr]
  · simp only [hr, if_false]
    rcases hbad with hb | hb | hb <;> simp [tryBlock, hb, applyEntries]

theorem loadForm_congr (host : Host) (ls ls2 : Storage) (form : Form)
    (h : getItem ls2 (draftKey (formId form)) = getItem ls (draftKey (formId form))) :
    loadForm host ls2 form = loadForm host ls form := by
  unfold loadForm
  rw [h]

theorem loadFormDrafts_index (host : Host) (ls : Storage) (forms : List Form) :
    ∃ os, loadFormDrafts host ls forms = Except.ok os ∧ os.length = forms.length ∧
      ∀ (i : Nat) (f : Form), forms[i]? = some f →
        ∃ o, os[i]? = some o ∧ loadForm host ls f = Except.ok o := by
  induction forms with
  | nil => exact ⟨[], rfl, rfl, fun i f h => by simp at h⟩
  | cons g gs ih =>
    obtain ⟨os, hos, hlen, hidx⟩ := ih
    obtain ⟨o, ho⟩ := loadForm_total host ls g
    refine ⟨o :: os, ?_, by simp [hlen], ?_⟩
    · simp only [loadFormDrafts, ho, hos]
    · intro i f hi
      cases i with
      | zero =>
        simp only [List.getElem?_cons_zero, Option.some.injEq] at hi
        subst hi
        exact ⟨o, by simp, ho⟩
      | succ n =>
        simp only [List.getElem?_cons_succ] at hi ⊢
        exact hidx n f hi

/-! ## Form drafts: the saved object -/

theorem insertIndex_perm (n : Nat) (e : String × String) (o : JsObject) :
    List.Perm (insertIndex n e o) (e :: o) := by
  induction o with
  | nil => exact List.Perm.refl _
  | cons h t ih =>
    unfold insertIndex
    split
    · split
      · exact (List.Perm.cons h ih).trans (List.Perm.swap e h t)
      · exact List.Perm.refl _
    · exact List.Perm.refl _

theorem defineOwn_perm (o : JsObject) (k v : String)
    (h : ¬ o.any (fun e => e.1 == k) = true) :
    List.Perm (defineOwn o k v) ((k, v) :: o) := by
  unfold defineOwn
  rw [if_neg h]
  split
  · exact insertIndex_perm _ _ _
  · exact List.perm_append_singleton _ _

theorem any_key_iff (o : List (String × String)) (k : String) :
    o.any (fun e => e.1 == k) = true ↔ k ∈ o.map Prod.fst := by
  simp only [List.any_eq_true, beq_iff_eq, List.mem_map]

theorem foldl_setProperty_perm (entries : List (String × String)) (o : JsObject)
    (hproto : ∀ e ∈ entries, e.1 ≠ "__proto__")
    (hnodup : (entries.map Prod.fst ++ o.map Prod.fst).Nodup) :
    List.Perm (entries.foldl (fun draft e => setProperty draft e.1 e.2) o) (entries ++ o) := by
  induction entries generalizing o with
  | nil => exact List.Perm.refl _
  | cons e es ih =>
    obtain ⟨k, v⟩ := e
    have hk : k ≠ "__proto__" := hproto (k, v) (List.mem_cons_self _ _)
    simp only [List.map_cons, List.cons_append, List.nodup_cons, List.mem_append, not_or] at hnodup
    obtain ⟨⟨hkes, hko⟩, hrest⟩ := hnodup
    have hnew : ¬ o.any (fun e => e.1 == k) = true := fun h => hko ((any_key_iff o k).1 h)
    have hstep : List.Perm (setProperty o k v) ((k, v) :: o) := by
      unfold setProperty
      rw [if_neg hk]
      exact defineOwn_perm o k v hnew
    have hkeys : List.Perm ((setProperty o k v).map Prod.fst) (k :: o.map Prod.fst) := by
      simpa using hstep.map Prod.fst
    have hnodup2 : (es.map Prod.fst ++ (setProperty o k v).map Prod.fst).Nodup := by
      have hp : List.Perm (es.map Prod.fst ++ (setProperty o k v).map Prod.fst)
          (k :: (es.map Prod.fst ++ o.map Prod.fst)) :=
        ((List.Perm.refl _).append hkeys).trans List.perm_middle
      refine hp.nodup_iff.2 ?_
      simp only [List.nodup_cons, List.mem_append, not_or]
      exact ⟨⟨hkes, hko⟩, hrest⟩
    have h1 := ih (setProperty o k v) (fun e he => hproto e (List.mem_cons_of_mem _ he)) hnodup2
    simp only [List.foldl_cons, List.cons_append]
    exact h1.trans (((List.Perm.refl es).append hstep).trans List.perm_middle)

theorem draftOf_perm (form : Form) (hproto : "__proto__" ∉ fieldNames form)
    (hnodup : (fieldNames form).Nodup) :
    List.Perm (draftOf form) (formDataEntries form) := by
  have h := foldl_setProperty_perm (formDataEntries form) []
    (fun e he hc => hproto (hc ▸ List.mem_map_of_mem Prod.fst he))
    (by simpa [fieldNames] using hnodup)
  simpa [draftOf] using h

theorem lookup_of_mem (o : List (String × String)) (k v : String)
    (hnodup : (o.map Prod.fst).Nodup) (h : (k, v) ∈ o) : o.lookup k = some v := by
  induction o with
  | nil => simp at h
  | cons e es ih =>
    obtain ⟨a, b⟩ := e
    simp only [List.map_cons, List.nodup_cons] at hnodup
    rcases List.mem_cons.1 h with h1 | h1
    · cases h1
      exact lookup_cons_eq k k v es rfl
    · have hne : k ≠ a := fun hka => hnodup.1 (hka ▸ List.mem_map_of_mem Prod.fst h1)
      rw [lookup_cons_ne k a b es hne]
      exact ih hnodup.2 h1

theorem lookup_of_not_mem (o : List (String × String)) (k : String)
    (h : k ∉ o.map Prod.fst) : o.lookup k = none :=
  lookup_none_of_not_any o k (fun hc => h ((any_key_iff o k).1 hc))

theorem jsonStringify_ne_empty (o : JsObject) : jsonStringify o ≠ "" := by
  intro h
  have h2 := congrArg String.data h
  simp [jsonStringify] at h2

/-! ## Form drafts: applying an object to the controls -/

theorem distinctNames_of_nodup (cs : List Control)
    (h : ((cs.filter (fun c => c.name != "")).map (fun c => c.name)).Nodup) :
    DistinctNames cs := by
  unfold DistinctNames
  induction cs with
  | nil => exact List.Pairwise.nil
  | cons c t ih =>
    by_cases hc : c.name = ""
    · have hf : (c :: t).filter (fun c => c.name != "") = t.filter (fun c => c.name != "") := by
        simp [List.filter, hc]
      rw [hf] at h
      exact List.Pairwise.cons (fun b _ _ => hc) (ih h)
    · have hf : (c :: t).filter (fun c => c.name != "")
          = c :: t.filter (fun c => c.name != "") :=
        List.filter_cons_of_pos (by simp [hc])
      rw [hf, List.map_cons, List.nodup_cons] at h
      refine List.Pairwise.cons (fun b hb hcb => ?_) (ih h.2)
      exfalso
      apply h.1
      rw [List.mem_map]
      refine ⟨b, ?_, hcb.symm⟩
      rw [List.mem_filter]
      refine ⟨hb, ?_⟩
      have : b.name ≠ "" := fun hbn => hc (hcb.trans hbn)
      simpa using this

theorem assignFirst_eq_map (k v : String) (hk : k ≠ "") (cs : List Control)
    (hd : DistinctNames cs) :
    assignFirst (fun c => c.name == k) v cs
      = cs.map (fun c => if c.name = k then { c with value := stripNewlines v } else c) := by
  induction cs with
  | nil => rfl
  | cons c t ih =>
    unfold DistinctNames at hd
    rw [List.pairwise_cons] at hd
    by_cases hc : c.name = k
    · have ht : t.map (fun c => if c.name = k then { c with value := stripNewlines v } else c)
          = t := by
        conv_rhs => rw [← List.map_id t]
        apply List.map_congr_left
        intro b hb
        have hbk : b.name ≠ k := fun hbk => hk (hc ▸ hd.1 b hb (hc.trans hbk.symm))
        simp [hbk]
      simp only [assignFirst, List.map_cons, hc, beq_self_eq_true, if_true, ht]
    · have hc2 : (c.name == k) = false := by simpa using hc
      simp only [assignFirst, List.map_cons, hc, hc2, if_false, Bool.false_eq_true]
      rw [ih hd.2]

theorem distinctNames_map (cs : List Control) (f : Control → Control)
    (hf : ∀ c, (f c).name = c.name) (hd : DistinctNames cs) : DistinctNames (cs.map f) := by
  unfold DistinctNames at hd ⊢
  rw [List.pairwise_map]
  exact hd.imp (fun {a b} h => by simpa [hf] using h)

theorem namedControls_map (cs : List Control) (f : Control → Control)
    (hf : ∀ c, (f c).name = c.name ∧ (f c).id = c.id) (property : String) :
    namedControls (cs.map f) property = (namedControls cs property).map f := by
  unfold namedControls
  rw [List.filter_map]
  congr 2
  funext c
  simp [Function.comp, (hf c).1, (hf c).2]

theorem namedControls_map_nil (cs : List Control) (f : Control → Control)
    (hf : ∀ c, (f c).name = c.name ∧ (f c).id = c.id) (property : String)
    (h : namedControls cs property = []) : namedControls (cs.map f) property = [] := by
  rw [namedControls_map cs f hf, h]
  rfl

theorem formId_of_no_shadow (form : Form) (h : namedControls form.controls "id" = []) :
    formId form = if form.id = "" then "default" else form.id := by
  unfold formId
  rw [h]

theorem formId_emptyClone (form : Form) : formId (emptyClone form) = formId form := by
  unfold formId emptyClone
  simp only
  rw [namedControls_map form.controls (fun c => { c with value := "" }) (fun _ => ⟨rfl, rfl⟩)]
  cases namedControls form.controls "id" with
  | nil => rfl
  | cons a t => cases t <;> rfl

theorem applyEntries_eq_map (host : Host) (o : JsObject) (cs : List Control)
    (hnodup : (o.map Prod.fst).Nodup)
    (hsel : ∀ k ∈ o.map Prod.fst, SelectsName host k)
    (hne : "" ∉ o.map Prod.fst)
    (hmethod : namedControls cs "querySelector" = [])
    (hd : DistinctNames cs) :
    applyEntries host o cs = (cs.map (withDraft o), none) := by
  induction o generalizing cs with
  | nil =>
    have : cs.map (withDraft []) = cs := by
      conv_rhs => rw [← List.map_id cs]
      apply List.map_congr_left
      intro c _
      simp [withDraft, List.lookup]
    simp [applyEntries, this]
  | cons e rest ih =>
    obtain ⟨k, v⟩ := e
    simp only [List.map_cons, List.nodup_cons] at hnodup
    have hk : k ≠ "" := fun h => hne (by simp [h])
    obtain ⟨p, hp, hpc⟩ := hsel k (by simp)
    have hpf : p = fun c => c.name == k := funext hpc
    subst hpf
    simp only [applyEntries, hmethod, hp]
    rw [assignFirst_eq_map k v hk cs hd]
    rw [ih _ hnodup.2 (fun k2 hk2 => hsel k2 (List.mem_cons_of_mem _ hk2))
      (fun h => hne (List.mem_cons_of_mem _ h))
      (namedControls_map_nil cs _
        (fun c => by by_cases h : c.name = k <;> simp [h]) _ hmethod)
      (distinctNames_map cs _ (fun c => by by_cases h : c.name = k <;> simp [h]) hd)]
    rw [List.map_map]
    congr 1
    apply List.map_congr_left
    intro c _
    by_cases hc : c.name = k
    · have h1 : List.lookup k rest = none := lookup_of_not_mem rest k hnodup.1
      simp only [Function.comp, hc, if_true, withDraft, h1, lookup_cons_eq k k v rest rfl]
    · simp only [Function.comp, hc, if_false, withDraft, lookup_cons_ne c.name k v rest hc]

/-- C9 as stated fails.  After saving the form of identifier `f`, the store has
nothing under the key `draft:f`; the record is under `form_draft_f`.  And
for the form of identifier `donor` with a field named `id`, the read
`form.id` gives that field, not the identifier: nothing is written under
`form_draft_donor`. -/
theorem saveFormDraft_key_counterexample :
    getItem (saveFormDraft { id := "f", controls := [⟨"x", "a", ""⟩] } []) ("draft:" ++ "f") = none ∧
    getItem (saveFormDraft { id := "f", controls := [⟨"x", "a", ""⟩] } []) "form_draft_f"
      = some (jsonStringify [("x", "a")]) ∧
    getItem (saveFormDraft idNameForm []) "form_draft_donor" = none ∧
    getItem (saveFormDraft idNameForm []) "form_draft_[object HTMLInputElement]"
      = some (jsonStringify [("id", "7")]) := by
  decide

theorem saveFormDraft_writes (form : Form) (ls : Storage) :
    getItem (saveFormDraft form ls) (draftKey (formId form))
      = some (jsonStringify (draftOf form)) ∧
    ∀ k, k ≠ draftKey (formId form) → getItem (saveFormDraft form ls) k = getItem ls k :=
  ⟨getItem_setItem_same _ _ _, fun _ hk => getItem_setItem_other _ _ _ _ hk⟩

/-- C9 amended. For a form none of whose controls has the name or the id `id`,
`saveFormDraft(form)` writes the serialized record under the key
`form_draft_` followed by the `id` attribute of the form, or by `default`
when the form has none; the record replaces what the key held, and every
other key of the store keeps its value. -/
theorem saveFormDraft_key (form : Form) (ls : Storage)
    (hid : namedControls form.controls "id" = []) :
    getItem (saveFormDraft form ls)
        ("form_draft_" ++ (if form.id = "" then "default" else form.id))
      = some (jsonStringify (draftOf form)) ∧
    (∀ k, k ≠ "form_draft_" ++ (if form.id = "" then "default" else form.id) →
      getItem (saveFormDraft form ls) k = getItem ls k) ∧
    (form.id = "" → formId form = "default") ∧
    (form.id ≠ "" → formId form = form.id) := by
  have hf := formId_of_no_shadow form hid
  have hw := saveFormDraft_writes form ls
  rw [hf] at hw
  refine ⟨hw.1, hw.2, ?_, ?_⟩
  · intro h; rw [hf, if_pos h]
  · intro h; rw [hf, if_neg h]

/-- Witness of C9 amended: the donor form saved into a store that holds an
older record for it and a record under another key. -/
theorem saveFormDraft_key_witness :
    namedControls donorForm.controls "id" = [] ∧
    getItem (saveFormDraft donorForm [("form_draft_donor", "old"), ("form_draft_request", "kept")])
        ("form_draft_" ++ "donor")
      = some (jsonStringify [("name", "Asha"), ("group", "O+")]) ∧
    getItem (saveFormDraft donorForm [("form_draft_donor", "old"), ("form_draft_request", "kept")])
        "form_draft_request" = some "kept" :=
  ⟨by decide,
   (saveFormDraft_key donorForm [("form_draft_donor", "old"), ("form_draft_request", "kept")]
      (by decide)).1,
   (saveFormDraft_key donorForm [("form_draft_donor", "old"), ("form_draft_request", "kept")]
      (by decide)).2.1 "form_draft_request" (by decide)⟩

/-- C2 as stated fails.  The form of identifier `donor` has a field named `id`,
so a save of it writes, and a load of it reads, the key
`form_draft_[object HTMLInputElement]`; `clearFormDraft("donor")` removes
`form_draft_donor`, and the load that follows applies the record and shows
the notification. -/
theorem clearFormDraft_then_load_counterexample :
    idNameForm.id = "donor" ∧
    saveFormDraft { id := "donor", controls := [⟨"id", "9", ""⟩] } [] = idNameStore ∧
    loadFormDrafts refHost (clearFormDraft (some "donor") idNameStore).1 [idNameForm]
      = Except.ok [{ form := { id := "donor", controls := [⟨"id", "9", ""⟩] },
                     notified := true, logged := none }] :=
  ⟨rfl, by decide, rfl⟩

/-- C2 amended. After `clearFormDraft(id)`, `loadFormDrafts()` returns normally
and, for every form of identifier `id` none of whose controls has the name
or the id `id`, reports the form unchanged, no notification and nothing
logged; after `clearFormDraft()` the same holds for every such form
without identifier.  This is so for every host, every store and every list
of forms. -/
theorem clearFormDraft_then_load (host : Host) (ls : Storage) (forms : List Form) :
    (∀ id : String, id ≠ "" →
      ∃ os, loadFormDrafts host (clearFormDraft (some id) ls).1 forms = Except.ok os ∧
        ∀ (i : Nat) (f : Form), forms[i]? = some f → f.id = id →
          namedControls f.controls "id" = [] →
          os[i]? = some { form := f, notified := false, logged := none }) ∧
    (∃ os, loadFormDrafts host (clearFormDraft none ls).1 forms = Except.ok os ∧
        ∀ (i : Nat) (f : Form), forms[i]? = some f → f.id = "" →
          namedControls f.controls "id" = [] →
          os[i]? = some { form := f, notified := false, logged := none }) := by
  constructor
  · intro id hid
    obtain ⟨os, hos, _, hidx⟩ := loadFormDrafts_index host (clearFormDraft (some id) ls).1 forms
    refine ⟨os, hos, fun i f hi hf hsh => ?_⟩
    obtain ⟨o, ho, hl⟩ := hidx i f hi
    have hkey : formId f = id := by rw [formId_of_no_shadow f hsh, hf, if_neg hid]
    have habs : getItem (clearFormDraft (some id) ls).1 (draftKey (formId f)) = none := by
      rw [hkey]; exact getItem_removeItem_same ls (draftKey id)
    rw [loadForm_absent host _ f habs] at hl
    cases hl
    exact ho
  · obtain ⟨os, hos, _, hidx⟩ := loadFormDrafts_index host (clearFormDraft none ls).1 forms
    refine ⟨os, hos, fun i f hi hf hsh => ?_⟩
    obtain ⟨o, ho, hl⟩ := hidx i f hi
    have hkey : formId f = "default" := by rw [formId_of_no_shadow f hsh, if_pos hf]
    have habs : getItem (clearFormDraft none ls).1 (draftKey (formId f)) = none := by
      rw [hkey]; exact getItem_removeItem_same ls (draftKey "default")
    rw [loadForm_absent host _ f habs] at hl
    cases hl
    exact ho

/-- Witness of C2 amended: a stored draft that a load applies is not applied
once cleared. -/
theorem clearFormDraft_then_load_witness :
    loadFormDrafts refHost (saveFormDraft ⟨"f", [⟨"x", "a", ""⟩]⟩ []) [⟨"f", [⟨"x", "", ""⟩]⟩]
      = Except.ok [{ form := ⟨"f", [⟨"x", "a", ""⟩]⟩, notified := true, logged := none }] ∧
    loadFormDrafts refHost (clearFormDraft (some "f") (saveFormDraft ⟨"f", [⟨"x", "a", ""⟩]⟩ [])).1
        [⟨"f", [⟨"x", "", ""⟩]⟩]
      = Except.ok [{ form := ⟨"f", [⟨"x", "", ""⟩]⟩, notified := false, logged := none }] := by
  refine ⟨rfl, ?_⟩
  obtain ⟨os, hos, hidx⟩ := (clearFormDraft_then_load refHost
    (saveFormDraft ⟨"f", [⟨"x", "a", ""⟩]⟩ []) [⟨"f", [⟨"x", "", ""⟩]⟩]).1 "f" (by decide)
  rw [hos]
  have h0 := hidx 0 ⟨"f", [⟨"x", "", ""⟩]⟩ rfl rfl (by decide)
  have hl : os.length = 1 := by
    have := loadFormDrafts_index refHost
      (clearFormDraft (some "f") (saveFormDraft ⟨"f", [⟨"x", "a", ""⟩]⟩ [])).1
      [⟨"f", [⟨"x", "", ""⟩]⟩]
    obtain ⟨os2, hos2, hlen, _⟩ := this
    rw [hos] at hos2
    cases hos2
    exact hlen
  match os, hl, h0 with
  | [o], _, h0 => simp at h0; rw [h0]

/-- C8 as stated fails.  The value stored for the form `f` is the JSON array
of the one string `x`, which is not a JSON object; `JSON.parse` reads it,
`Object.keys` gives its index `0`, and the field named `0` of the form,
which held `a`, is given `x`.  Without the record the field keeps `a`. -/
theorem loadFormDrafts_corrupt_record_counterexample :
    getItem arrayStore (draftKey (formId indexForm)) = some "[\"x\"]" ∧
    refHost.jsonParse "[\"x\"]" = Parsed.entries [("0", "x")] ∧
    loadFormDrafts refHost arrayStore [indexForm]
      = Except.ok [{ form := { id := "f", controls := [⟨"0", "x", ""⟩] },
                     notified := true, logged := none }] ∧
    loadFormDrafts refHost (removeItem arrayStore (draftKey (formId indexForm))) [indexForm]
      = Except.ok [{ form := { id := "f", controls := [⟨"0", "a", ""⟩] },
                     notified := false, logged := none }] :=
  ⟨by decide, by decide, rfl, rfl⟩

/-- C8 amended. If `JSON.parse` throws on the value stored for a form, or gives
`null`, or gives a value without keys, then `loadFormDrafts()` returns
normally; every form using that key comes out unchanged; and every form of
the page comes out exactly as from a load of the store without that
record.  This is so for every host, every store and every list of forms,
in whatever order. -/
theorem loadFormDrafts_corrupt_record (host : Host) (ls : Storage) (forms : List Form)
    (f : Form) (r : String) (hf : f ∈ forms)
    (hget : getItem ls (draftKey (formId f)) = some r)
    (hbad : host.jsonParse r = Parsed.syntaxError ∨ host.jsonParse r = Parsed.null ∨
      host.jsonParse r = Parsed.entries []) :
    ∃ os os2, loadFormDrafts host ls forms = Except.ok os ∧
      loadFormDrafts host (removeItem ls (draftKey (formId f))) forms = Except.ok os2 ∧
      (∃ (i : Nat) (o : LoadOutcome), forms[i]? = some f ∧ os[i]? = some o ∧ o.form = f) ∧
      (∀ (i : Nat) (g : Form), forms[i]? = some g → formId g = formId f →
        ∃ o, os[i]? = some o ∧ o.form = g) ∧
      (∀ (i : Nat) (g : Form), forms[i]? = some g → formId g ≠ formId f → os[i]? = os2[i]?) ∧
      os.map (fun o => o.form) = os2.map (fun o => o.form) := by
  obtain ⟨os, hos, hlen, hidx⟩ := loadFormDrafts_index host ls forms
  obtain ⟨os2, hos2, hlen2, hidx2⟩ :=
    loadFormDrafts_index host (removeItem ls (draftKey (formId f))) forms
  have hsame : ∀ (i : Nat) (g : Form), forms[i]? = some g → formId g = formId f →
      ∃ o o2, os[i]? = some o ∧ os2[i]? = some o2 ∧ o.form = g ∧ o2.form = g := by
    intro i g hi hk
    obtain ⟨o, ho, hl⟩ := hidx i g hi
    obtain ⟨o2, ho2, hl2⟩ := hidx2 i g hi
    obtain ⟨o3, hl3, h3⟩ := loadForm_unreadable host ls g r (hk ▸ hget) hbad
    rw [hl] at hl3
    cases hl3
    have habs : getItem (removeItem ls (draftKey (formId f))) (draftKey (formId g)) = none := by
      rw [hk]; exact getItem_removeItem_same ls _
    rw [loadForm_absent host _ g habs] at hl2
    cases hl2
    exact ⟨o, _, ho, ho2, h3, rfl⟩
  have hother : ∀ (i : Nat) (g : Form), forms[i]? = some g → formId g ≠ formId f →
      os[i]? = os2[i]? := by
    intro i g hi hk
    obtain ⟨o, ho, hl⟩ := hidx i g hi
    obtain ⟨o2, ho2, hl2⟩ := hidx2 i g hi
    have hkey : draftKey (formId g) ≠ draftKey (formId f) :=
      fun h => hk (draftKey_injective _ _ h)
    rw [loadForm_congr host ls _ g (getItem_removeItem_other ls _ _ hkey), hl] at hl2
    cases hl2
    rw [ho, ho2]
  have hpoint : ∀ i : Nat, (os[i]?).map (fun o => o.form) = (os2[i]?).map (fun o => o.form) := by
    intro i
    by_cases hi : i < forms.length
    · have hg : forms[i]? = some forms[i] := List.getElem?_eq_getElem hi
      by_cases hk : formId forms[i] = formId f
      · obtain ⟨o, o2, ho, ho2, h1, h2⟩ := hsame i _ hg hk
        simp [ho, ho2, h1, h2]
      · rw [hother i _ hg hk]
    · have h1 : os[i]? = none := List.getElem?_eq_none (by omega)
      have h2 : os2[i]? = none := List.getElem?_eq_none (by omega)
      rw [h1, h2]
  refine ⟨os, os2, hos, hos2, ?_, ?_, hother, ?_⟩
  · obtain ⟨i, hi⟩ := List.mem_iff_getElem?.1 hf
    obtain ⟨o, o2, ho, _, h1, _⟩ := hsame i f hi rfl
    exact ⟨i, o, hi, ho, h1⟩
  · intro i g hi hk
    obtain ⟨o, o2, ho, _, h1, _⟩ := hsame i g hi hk
    exact ⟨o, ho, h1⟩
  · apply List.ext_getElem?
    intro i
    rw [List.getElem?_map, List.getElem?_map]
    exact hpoint i

/-- Witness of C8 amended: three forms, the value stored for the second one is
not JSON; the first and the third are restored, the second is unchanged. -/
theorem loadFormDrafts_corrupt_record_witness :
    getItem corruptStore (draftKey (formId (emptyClone requestForm))) = some "\x7boops" ∧
    refHost.jsonParse "\x7boops" = Parsed.syntaxError ∧
    ∃ os os2,
      loadFormDrafts refHost corruptStore
        [emptyClone donorForm, emptyClone requestForm, emptyClone searchForm] = Except.ok os ∧
      loadFormDrafts refHost (removeItem corruptStore (draftKey (formId (emptyClone requestForm))))
        [emptyClone donorForm, emptyClone requestForm, emptyClone searchForm] = Except.ok os2 ∧
      os.map (fun o => o.form) = os2.map (fun o => o.form) ∧
      os.map (fun o => o.form) = [donorForm, emptyClone requestForm, restoredForm searchForm] := by
  refine ⟨by decide, by decide, ?_⟩
  obtain ⟨os, os2, h1, h2, _, _, _, h6⟩ := loadFormDrafts_corrupt_record refHost corruptStore
    [emptyClone donorForm, emptyClone requestForm, emptyClone searchForm]
    (emptyClone requestForm) "\x7boops" (by decide) (by decide) (Or.inl (by decide))
  have e : loadFormDrafts refHost corruptStore
      [emptyClone donorForm, emptyClone requestForm, emptyClone searchForm]
      = Except.ok [{ form := donorForm, notified := true, logged := none },
          { form := emptyClone requestForm, notified := false,
            logged := some (JsError.syntaxError "\x7boops") },
          { form := restoredForm searchForm, notified := true, logged := none }] := rfl
  rw [e] at h1
  cases h1
  exact ⟨_, os2, e, h2, h6, rfl⟩

/-! ## JSON text: reading back what was written -/

theorem hexValue_hexDigit (k : Nat) (h : k < 16) : hexValue (hexDigit k) = some k := by
  interval_cases k <;> decide

theorem unicodeEscape_control (c : Char) (h : c.toNat < 32) :
    unicodeEscape '0' '0' (hexDigit (c.toNat / 16)) (hexDigit (c.toNat % 16)) = some c := by
  have h0 : hexValue '0' = some 0 := by decide
  have h1 := hexValue_hexDigit (c.toNat / 16) (by omega)
  have h2 := hexValue_hexDigit (c.toNat % 16) (by omega)
  have hn : ((0 * 16 + 0) * 16 + c.toNat / 16) * 16 + c.toNat % 16 = c.toNat := by omega
  have hs : ¬ (55296 ≤ c.toNat ∧ c.toNat < 57344) := by omega
  simp only [unicodeEscape, h0, h1, h2, hn, hs, if_false, Char.ofNat_toNat]

theorem readString_short_escape (e ch : Char) (tail : List Char) (he : e ≠ 'u')
    (hu : unescapeChar e = some ch) :
    readString ('\\' :: e :: tail) = (readString tail).map (fun r => (ch :: r.1, r.2)) := by
  rw [readString.eq_def]
  have h1 : ¬ ('\\' = '"') := by decide
  simp only [h1, if_false, if_true, he, hu]

theorem readString_unicode_escape (a b c d ch : Char) (tail : List Char)
    (hu : unicodeEscape a b c d = some ch) :
    readString ('\\' :: 'u' :: a :: b :: c :: d :: tail)
      = (readString tail).map (fun r => (ch :: r.1, r.2)) := by
  rw [readString.eq_def]
  have h1 : ¬ ('\\' = '"') := by decide
  simp only [h1, if_false, if_true, hu]

theorem readString_plain (c : Char) (tail : List Char) (h1 : c ≠ '"') (h2 : c ≠ '\\')
    (h3 : ¬ c.toNat < 32) :
    readString (c :: tail) = (readString tail).map (fun r => (c :: r.1, r.2)) := by
  rw [readString.eq_def]
  simp only [h1, h2, h3, if_false]

theorem readString_quote (tail : List Char) : readString ('"' :: tail) = some ([], tail) := by
  rw [readString.eq_def]
  simp

theorem readString_escapeChar (c : Char) (tail : List Char) :
    readString (escapeChar c ++ tail) = (readString tail).map (fun r => (c :: r.1, r.2)) := by
  unfold escapeChar
  by_cases h1 : c = '"'
  · subst h1; exact readString_short_escape _ _ _ (by decide) (by decide)
  by_cases h2 : c = '\\'
  · subst h2; exact readString_short_escape _ _ _ (by decide) (by decide)
  by_cases h3 : c = '\x08'
  · subst h3; exact readString_short_escape _ _ _ (by decide) (by decide)
  by_cases h4 : c = '\x0c'
  · subst h4; exact readString_short_escape _ _ _ (by decide) (by decide)
  by_cases h5 : c = '\n'
  · subst h5; exact readString_short_escape _ _ _ (by decide) (by decide)
  by_cases h6 : c = '\r'
  · subst h6; exact readString_short_escape _ _ _ (by decide) (by decide)
  by_cases h7 : c = '\t'
  · subst h7; exact readString_short_escape _ _ _ (by decide) (by decide)
  by_cases h8 : c.toNat < 32
  · simp only [h1, h2, h3, h4, h5, h6, h7, h8, if_false, if_true, List.cons_append,
      List.nil_append]
    exact readString_unicode_escape _ _ _ _ c tail (unicodeEscape_control c h8)
  · simp only [h1, h2, h3, h4, h5, h6, h7, h8, if_false, List.cons_append, List.nil_append]
    exact readString_plain c tail h1 h2 h8

theorem readString_escaped (s : List Char) (rest : List Char) :
    readString ((s.map escapeChar).flatten ++ '"' :: rest) = some (s, rest) := by
  induction s with
  | nil => exact readString_quote rest
  | cons c cs ih =>
    rw [List.map_cons, List.flatten_cons, List.append_assoc, readString_escapeChar, ih]
    rfl

theorem readQuoted_quoteJson (s : String) (rest : List Char) :
    readQuoted (quoteJson s ++ rest) = some (s, rest) := by
  have h : quoteJson s ++ rest = '"' :: ((s.data.map escapeChar).flatten ++ '"' :: rest) := by
    simp [quoteJson]
  rw [h]
  have he : expect '"' ('"' :: ((s.data.map escapeChar).flatten ++ '"' :: rest))
      = some ((s.data.map escapeChar).flatten ++ '"' :: rest) := by
    simp [expect, skipSpace, isJsonSpace]
  simp only [readQuoted, he, readString_escaped]
  rfl

theorem readMember_member (k v : String) (rest : List Char) :
    readMember (quoteJson k ++ ':' :: (quoteJson v ++ rest)) = some ((k, v), rest) := by
  have he : ∀ tail, expect ':' (':' :: tail) = some tail := by
    intro tail; simp [expect, skipSpace, isJsonSpace]
  simp only [readMember, readQuoted_quoteJson, he]
  rfl

theorem length_le_membersJson (o : JsObject) : o.length ≤ (membersJson o).length := by
  induction o with
  | nil => simp
  | cons e es ih =>
    obtain ⟨k, v⟩ := e
    cases es with
    | nil => simp [membersJson, quoteJson]
    | cons e2 es2 =>
      simp only [membersJson, List.length_append, List.length_cons] at ih ⊢
      omega

theorem membersJson_head (e : String × String) (es : JsObject) :
    ∃ tail, membersJson (e :: es) = '"' :: tail := by
  obtain ⟨k, v⟩ := e
  cases es with
  | nil => exact ⟨_, by simp [membersJson, quoteJson]; rfl⟩
  | cons e2 es2 => exact ⟨_, by simp [membersJson, quoteJson]; rfl⟩

theorem readMembers_membersJson (es : JsObject) (e : String × String) (fuel : Nat)
    (acc : JsObject) (rest : List Char) (hfuel : es.length < fuel) :
    readMembers fuel (membersJson (e :: es) ++ '\x7d' :: rest) acc
      = some ((e :: es).foldl (fun a x => defineOwn a x.1 x.2) acc, rest) := by
  induction es generalizing e fuel acc with
  | nil =>
    obtain ⟨k, v⟩ := e
    cases fuel with
    | zero => simp at hfuel
    | succ f =>
      have h : membersJson [(k, v)] ++ '\x7d' :: rest
          = quoteJson k ++ ':' :: (quoteJson v ++ '\x7d' :: rest) := by
        simp [membersJson]
      rw [h]
      simp [readMembers, readMember_member, skipSpace, isJsonSpace]
  | cons e2 es2 ih =>
    obtain ⟨k, v⟩ := e
    cases fuel with
    | zero => simp at hfuel
    | succ f =>
      have h : membersJson ((k, v) :: e2 :: es2) ++ '\x7d' :: rest
          = quoteJson k ++ ':' :: (quoteJson v ++ ',' :: (membersJson (e2 :: es2) ++ '\x7d' :: rest)) := by
        simp [membersJson]
      rw [h]
      have hf : es2.length < f := by simp at hfuel; omega
      simp [readMembers, readMember_member, skipSpace, isJsonSpace, ih e2 f _ hf]

theorem jsonParseRef_jsonStringify (o : JsObject) :
    jsonParseRef (jsonStringify o)
      = Parsed.entries (o.foldl (fun a x => defineOwn a x.1 x.2) []) := by
  cases o with
  | nil => decide
  | cons e es =>
    obtain ⟨tail, ht⟩ := membersJson_head e es
    have hd : (jsonStringify (e :: es)).data = '\x7b' :: (membersJson (e :: es) ++ ['\x7d']) := rfl
    have hlen : es.length < (membersJson (e :: es) ++ ['\x7d']).length := by
      have := length_le_membersJson (e :: es)
      simp only [List.length_cons, List.length_append, List.length_nil] at this ⊢
      omega
    have hread := readMembers_membersJson es e _ [] [] hlen
    have hs : skipSpace (membersJson (e :: es) ++ ['\x7d']) = '"' :: (tail ++ ['\x7d']) := by
      rw [ht]; simp [skipSpace, isJsonSpace]
    unfold jsonParseRef
    rw [hd]
    simp only [skipSpace, isJsonSpace]
    rw [List.length_append, List.length_singleton] at hread
    simp [hs, hread, atEnd, skipSpace]

/-! ## Objects: the order of the properties -/

theorem keyOrder_congr (a b a2 b2 : String × String) (ha : a2.1 = a.1) (hb : b2.1 = b.1)
    (h : KeyOrder a b) : KeyOrder a2 b2 := by
  unfold KeyOrder at h ⊢
  rw [ha, hb]
  exact h

theorem canonical_replace (o : JsObject) (k v : String) (h : Canonical o) :
    Canonical (o.map (fun e => if e.1 == k then (k, v) else e)) := by
  unfold Canonical at h ⊢
  rw [List.pairwise_map]
  refine h.imp (fun {a b} hab => ?_)
  apply keyOrder_congr a b _ _ _ _ hab
  · by_cases ha : a.1 = k <;> simp [ha]
  · by_cases hb : b.1 = k <;> simp [hb]

theorem mem_insertIndex (n : Nat) (e x : String × String) (o : JsObject)
    (h : x ∈ insertIndex n e o) : x = e ∨ x ∈ o := by
  have := (insertIndex_perm n e o).mem_iff.1 h
  simpa using this

theorem canonical_insertIndex (n : Nat) (e : String × String) (o : JsObject)
    (hidx : arrayIndex e.1 = some n) (hnew : ∀ a ∈ o, a.1 ≠ e.1) (h : Canonical o) :
    Canonical (insertIndex n e o) := by
  unfold Canonical at h ⊢
  induction o with
  | nil => simp [insertIndex]
  | cons a t ih =>
    rw [List.pairwise_cons] at h
    have hae : a.1 ≠ e.1 := hnew a (List.mem_cons_self _ _)
    have hnewt : ∀ x ∈ t, x.1 ≠ e.1 := fun x hx => hnew x (List.mem_cons_of_mem _ hx)
    unfold insertIndex
    cases hm : arrayIndex a.1 with
    | some m =>
      simp only
      by_cases hle : m ≤ n
      · rw [if_pos hle, List.pairwise_cons]
        refine ⟨fun x hx => ?_, ih hnewt h.2⟩
        rcases mem_insertIndex n e x t hx with hxe | hxt
        · subst hxe
          refine ⟨hae, ?_⟩
          rw [hm, hidx]
          exact hle
        · exact h.1 x hxt
      · rw [if_neg hle, List.pairwise_cons]
        refine ⟨fun x hx => ?_, List.pairwise_cons.2 h⟩
        rcases List.mem_cons.1 hx with hxa | hxt
        · subst hxa
          refine ⟨fun hc => hae hc.symm, ?_⟩
          rw [hidx, hm]
          show n ≤ m
          omega
        · refine ⟨fun hc => hnewt x hxt hc.symm, ?_⟩
          have hax := (h.1 x hxt).2
          rw [hm] at hax
          rw [hidx]
          cases hx2 : arrayIndex x.1 with
          | some m2 =>
            rw [hx2] at hax
            show n ≤ m2
            have : m ≤ m2 := hax
            omega
          | none => trivial
    | none =>
      simp only
      rw [List.pairwise_cons]
      refine ⟨fun x hx => ?_, List.pairwise_cons.2 h⟩
      rcases List.mem_cons.1 hx with hxa | hxt
      · subst hxa
        refine ⟨fun hc => hae hc.symm, ?_⟩
        rw [hidx, hm]
        trivial
      · refine ⟨fun hc => hnewt x hxt hc.symm, ?_⟩
        have hax := (h.1 x hxt).2
        rw [hm] at hax
        rw [hidx]
        cases hx2 : arrayIndex x.1 with
        | some m2 => rw [hx2] at hax; exact hax.elim
        | none => trivial

theorem canonical_append (o : JsObject) (e : String × String)
    (hidx : arrayIndex e.1 = none) (hnew : ∀ a ∈ o, a.1 ≠ e.1) (h : Canonical o) :
    Canonical (o ++ [e]) := by
  unfold Canonical at h ⊢
  rw [List.pairwise_append]
  refine ⟨h, List.pairwise_singleton _ _, fun a ha b hb => ?_⟩
  rw [List.mem_singleton] at hb
  subst hb
  refine ⟨hnew a ha, ?_⟩
  rw [hidx]
  cases arrayIndex a.1 <;> trivial

theorem canonical_defineOwn (o : JsObject) (k v : String) (h : Canonical o) :
    Canonical (defineOwn o k v) := by
  unfold defineOwn
  by_cases hany : o.any (fun e => e.1 == k) = true
  · rw [if_pos hany]
    exact canonical_replace o k v h
  · rw [if_neg hany]
    have hnew : ∀ a ∈ o, a.1 ≠ k := by
      intro a ha hc
      exact hany (List.any_eq_true.2 ⟨a, ha, by simp [hc]⟩)
    cases hidx : arrayIndex k with
    | some n => exact canonical_insertIndex n (k, v) o hidx hnew h
    | none => exact canonical_append o (k, v) hidx hnew h

theorem canonical_draftOf (form : Form) : Canonical (draftOf form) := by
  unfold draftOf
  have : ∀ (entries : List (String × String)) (o : JsObject), Canonical o →
      Canonical (entries.foldl (fun draft e => setProperty draft e.1 e.2) o) := by
    intro entries
    induction entries with
    | nil => exact fun o h => h
    | cons e es ih =>
      intro o h
      rw [List.foldl_cons]
      apply ih
      unfold setProperty
      by_cases hp : e.1 = "__proto__"
      · rw [if_pos hp]; exact h
      · rw [if_neg hp]; exact canonical_defineOwn o e.1 e.2 h
  exact this _ [] List.Pairwise.nil

theorem insertIndex_last (n : Nat) (e : String × String) (acc : JsObject)
    (h : ∀ a ∈ acc, ∃ m, arrayIndex a.1 = some m ∧ m ≤ n) :
    insertIndex n e acc = acc ++ [e] := by
  induction acc with
  | nil => rfl
  | cons a t ih =>
    obtain ⟨m, hm, hle⟩ := h a (List.mem_cons_self _ _)
    unfold insertIndex
    simp only [hm, hle, if_true, List.cons_append]
    rw [ih (fun x hx => h x (List.mem_cons_of_mem _ hx))]

theorem defineOwn_last (acc : JsObject) (e : String × String)
    (h : Canonical (acc ++ [e])) : defineOwn acc e.1 e.2 = acc ++ [e] := by
  unfold Canonical at h
  rw [List.pairwise_append] at h
  obtain ⟨_, _, hcross⟩ := h
  have hord : ∀ a ∈ acc, KeyOrder a e := fun a ha => hcross a ha e (List.mem_singleton_self e)
  have hany : ¬ acc.any (fun x => x.1 == e.1) = true := by
    intro hc
    obtain ⟨a, ha, hk⟩ := List.any_eq_true.1 hc
    exact (hord a ha).1 (by simpa using hk)
  unfold defineOwn
  rw [if_neg hany]
  cases hidx : arrayIndex e.1 with
  | none => rfl
  | some n =>
    simp only
    apply insertIndex_last
    intro a ha
    have h2 := (hord a ha).2
    rw [hidx] at h2
    cases hm : arrayIndex a.1 with
    | some m => rw [hm] at h2; exact ⟨m, rfl, h2⟩
    | none => rw [hm] at h2; exact h2.elim

theorem foldl_defineOwn_canonical (rest acc : JsObject) (h : Canonical (acc ++ rest)) :
    rest.foldl (fun a x => defineOwn a x.1 x.2) acc = acc ++ rest := by
  induction rest generalizing acc with
  | nil => simp
  | cons e es ih =>
    have h2 : Canonical ((acc ++ [e]) ++ es) := by simpa using h
    have h3 : Canonical (acc ++ [e]) := by
      unfold Canonical at h2 ⊢
      exact (List.pairwise_append.1 h2).1
    rw [List.foldl_cons, defineOwn_last acc e h3, ih _ h2]
    simp

/-- The reference JSON reader reads back the draft of every form as it was
written. -/
theorem jsonParseRef_draftOf (form : Form) :
    jsonParseRef (jsonStringify (draftOf form)) = Parsed.entries (draftOf form) := by
  rw [jsonParseRef_jsonStringify,
    foldl_defineOwn_canonical (draftOf form) [] (by simpa using canonical_draftOf form)]
  simp

theorem fieldNames_eq (form : Form) :
    fieldNames form = (form.controls.filter (fun c => c.name != "")).map (fun c => c.name) := by
  simp [fieldNames, formDataEntries, List.map_map, Function.comp_def]

theorem empty_not_mem_fieldNames (form : Form) : "" ∉ fieldNames form := by
  rw [fieldNames_eq]
  simp

theorem mem_formDataEntries (form : Form) (c : Control) (hc : c ∈ form.controls)
    (hn : c.name ≠ "") : (c.name, c.value) ∈ formDataEntries form := by
  unfold formDataEntries
  rw [List.mem_map]
  exact ⟨c, List.mem_filter.2 ⟨hc, by simpa using hn⟩, rfl⟩

theorem refHost_selectsName (key : String) (h : key.data.all plainChar = true) :
    SelectsName refHost key := by
  refine ⟨fun c => c.name == key, ?_, fun _ => rfl⟩
  have hd : (nameSelectorText key).data
      = '[' :: 'n' :: 'a' :: 'm' :: 'e' :: '=' :: '"' :: (key.data ++ ['"', ']']) := by
    simp [nameSelectorText, String.data_append]
  have hlen : (key.data ++ ['"', ']']).length - 2 = key.data.length := by simp
  show selectorRef (nameSelectorText key) = _
  unfold selectorRef
  rw [hd]
  simp only [hlen, List.take_left', List.drop_left', h, and_self, if_true]

theorem round_trip_on_host (host : Host) (form : Form) (ls : Storage)
    (hparse : host.jsonParse (jsonStringify (draftOf form)) = Parsed.entries (draftOf form))
    (hsel : ∀ k ∈ fieldNames form, SelectsName host k)
    (hproto : "__proto__" ∉ fieldNames form)
    (hmethod : namedControls form.controls "querySelector" = [])
    (hnodup : (fieldNames form).Nodup)
    (hvalues : ValidValues form.controls) :
    RoundTrip host form ls ∧
    loadFormDrafts host (saveFormDraft form ls) [emptyClone form]
      = Except.ok [{ form := restoredForm form, notified := true, logged := none }] := by
  have hperm := draftOf_perm form hproto hnodup
  have hkeys : List.Perm ((draftOf form).map Prod.fst) (fieldNames form) := hperm.map Prod.fst
  have hdist : DistinctNames (emptyClone form).controls :=
    distinctNames_map form.controls _ (fun _ => rfl)
      (distinctNames_of_nodup form.controls (by rw [← fieldNames_eq]; exact hnodup))
  have happly := applyEntries_eq_map host (draftOf form) (emptyClone form).controls
    (hkeys.nodup_iff.2 hnodup)
    (fun k hk => hsel k (hkeys.mem_iff.1 hk))
    (fun h => empty_not_mem_fieldNames form (hkeys.mem_iff.1 h))
    (namedControls_map_nil form.controls (fun c => { c with value := "" })
      (fun _ => ⟨rfl, rfl⟩) _ hmethod)
    hdist
  have hcontrols : (emptyClone form).controls.map (withDraft (draftOf form))
      = form.controls.map (fun c => if c.name = "" then { c with value := "" } else c) := by
    simp only [emptyClone, List.map_map]
    apply List.map_congr_left
    intro c hc
    by_cases hn : c.name = ""
    · have hl : List.lookup "" (draftOf form) = none :=
        lookup_of_not_mem _ _ (fun h => empty_not_mem_fieldNames form (hkeys.mem_iff.1 h))
      simp [withDraft, hn, hl]
    · have hl : List.lookup c.name (draftOf form) = some c.value :=
        lookup_of_mem _ _ _ (hkeys.nodup_iff.2 hnodup)
          (hperm.mem_iff.2 (mem_formDataEntries form c hc hn))
      simp [withDraft, hn, hl, hvalues c hc]
  have hload : loadFormDrafts host (saveFormDraft form ls) [emptyClone form]
      = Except.ok [{ form := restoredForm form, notified := true, logged := none }] := by
    have hget : getItem (saveFormDraft form ls) (draftKey (formId (emptyClone form)))
        = some (jsonStringify (draftOf form)) := by
      rw [formId_emptyClone]; exact getItem_setItem_same _ _ _
    simp only [loadFormDrafts, loadForm, hget, jsonStringify_ne_empty, if_false, tryBlock,
      hparse, happly, hcontrols]
    rfl
  refine ⟨⟨_, hload, ?_⟩, hload⟩
  intro i c hi hn
  simp only [restoredForm, List.getElem?_map, hi, Option.map_some', hn, if_false]

/-- C1 amended. Take a form of text inputs (their values have no line break)
whose field names are pairwise distinct, none of them `__proto__`, and none
of whose controls has the name or the id `querySelector`.  On every host that reads back the JSON text of the draft
and reads each selector `[name="..."]` built from a field name as the test
for that name, `saveFormDraft` then `loadFormDrafts` on the empty clone
returns normally, shows the notification, and gives the form back with
every named field at its saved value (a control without name stays
empty).  The reference host is such a host when no field name has a double
quote, a backslash, a line break or NUL in it. -/
theorem draft_round_trip (form : Form) (ls : Storage)
    (hproto : "__proto__" ∉ fieldNames form)
    (hmethod : namedControls form.controls "querySelector" = [])
    (hnodup : (fieldNames form).Nodup)
    (hvalues : ValidValues form.controls) :
    (∀ host : Host,
      host.jsonParse (jsonStringify (draftOf form)) = Parsed.entries (draftOf form) →
      (∀ k ∈ fieldNames form, SelectsName host k) →
      RoundTrip host form ls ∧
      loadFormDrafts host (saveFormDraft form ls) [emptyClone form]
        = Except.ok [{ form := restoredForm form, notified := true, logged := none }]) ∧
    ((∀ k ∈ fieldNames form, k.data.all plainChar = true) →
      RoundTrip refHost form ls ∧
      loadFormDrafts refHost (saveFormDraft form ls) [emptyClone form]
        = Except.ok [{ form := restoredForm form, notified := true, logged := none }]) :=
  ⟨fun host hparse hsel =>
     round_trip_on_host host form ls hparse hsel hproto hmethod hnodup hvalues,
   fun hplain => round_trip_on_host refHost form ls (jsonParseRef_draftOf form)
      (fun k hk => refHost_selectsName k (hplain k hk)) hproto hmethod hnodup hvalues⟩

/-- Witness of C1 amended: the search form, which has a field with an `id`
attribute and a field without name, saved into a store that holds other
records. -/
theorem draft_round_trip_witness :
    "__proto__" ∉ fieldNames searchForm ∧
    namedControls searchForm.controls "querySelector" = [] ∧
    (fieldNames searchForm).Nodup ∧
    ValidValues searchForm.controls ∧
    (∀ k ∈ fieldNames searchForm, k.data.all plainChar = true) ∧
    RoundTrip refHost searchForm corruptStore ∧
    loadFormDrafts refHost (saveFormDraft searchForm corruptStore) [emptyClone searchForm]
      = Except.ok [{ form := { id := "", controls := [⟨"q", "plasma", "search-box"⟩, ⟨"", "", ""⟩] },
                     notified := true, logged := none }] :=
  ⟨by decide, by decide, by decide, by (unfold ValidValues; decide), by decide,
   ((draft_round_trip searchForm corruptStore (by decide) (by decide) (by decide)
      (by unfold ValidValues; decide)).2 (by decide)).1,
   ((draft_round_trip searchForm corruptStore (by decide) (by decide) (by decide)
      (by unfold ValidValues; decide)).2 (by decide)).2⟩

/-- C1 as stated fails.  With two controls of one name, the draft keeps the
value of the last one and the load gives it to the first one.  With a field
name that has a double quote in it, the selector built from the name is
rejected, the exception ends the loop, and no field is restored.  With a
field named `__proto__`, the assignment to the draft is ignored and the
field is not saved.  With a field named `querySelector`, the read
`form.querySelector` gives that field, the call throws, and no field is
restored.  In all four cases the JSON text of the draft is read back as it
was written. -/
theorem draft_round_trip_counterexample :
    ¬ RoundTrip refHost sharedNameForm [] ∧
    ¬ RoundTrip refHost quotedNameForm [] ∧
    ¬ RoundTrip refHost protoNameForm [] ∧
    ¬ RoundTrip refHost methodNameForm [] ∧
    loadFormDrafts refHost (saveFormDraft sharedNameForm []) [emptyClone sharedNameForm]
      = Except.ok [{ form := { id := "f", controls := [⟨"x", "b", ""⟩, ⟨"x", "", ""⟩] },
                     notified := true, logged := none }] ∧
    loadFormDrafts refHost (saveFormDraft quotedNameForm []) [emptyClone quotedNameForm]
      = Except.ok [{ form := { id := "g", controls := [⟨"a\"b", "", ""⟩, ⟨"c", "", ""⟩] },
                     notified := false,
                     logged := some (JsError.syntaxError "[name=\"a\"b\"]") }] ∧
    loadFormDrafts refHost (saveFormDraft protoNameForm []) [emptyClone protoNameForm]
      = Except.ok [{ form := { id := "p", controls := [⟨"__proto__", "", ""⟩] },
                     notified := true, logged := none }] ∧
    loadFormDrafts refHost (saveFormDraft methodNameForm []) [emptyClone methodNameForm]
      = Except.ok [{ form := { id := "h",
                               controls := [⟨"querySelector", "", ""⟩, ⟨"c", "", ""⟩] },
                     notified := false,
                     logged := some (JsError.typeError "form.querySelector is not a function") }] ∧
    refHost.jsonParse (jsonStringify (draftOf sharedNameForm))
      = Parsed.entries (draftOf sharedNameForm) ∧
    refHost.jsonParse (jsonStringify (draftOf quotedNameForm))
      = Parsed.entries (draftOf quotedNameForm) ∧
    refHost.jsonParse (jsonStringify (draftOf protoNameForm))
      = Parsed.entries (draftOf protoNameForm) ∧
    refHost.jsonParse (jsonStringify (draftOf methodNameForm))
      = Parsed.entries (draftOf methodNameForm) := by
  have h1 : loadFormDrafts refHost (saveFormDraft sharedNameForm []) [emptyClone sharedNameForm]
      = Except.ok [{ form := { id := "f", controls := [⟨"x", "b", ""⟩, ⟨"x", "", ""⟩] },
                     notified := true, logged := none }] := rfl
  have h2 : loadFormDrafts refHost (saveFormDraft quotedNameForm []) [emptyClone quotedNameForm]
      = Except.ok [{ form := { id := "g", controls := [⟨"a\"b", "", ""⟩, ⟨"c", "", ""⟩] },
                     notified := false,
                     logged := some (JsError.syntaxError "[name=\"a\"b\"]") }] := rfl
  have h3 : loadFormDrafts refHost (saveFormDraft protoNameForm []) [emptyClone protoNameForm]
      = Except.ok [{ form := { id := "p", controls := [⟨"__proto__", "", ""⟩] },
                     notified := true, logged := none }] := rfl
  have h4 : loadFormDrafts refHost (saveFormDraft methodNameForm []) [emptyClone methodNameForm]
      = Except.ok [{ form := { id := "h",
                               controls := [⟨"querySelector", "", ""⟩, ⟨"c", "", ""⟩] },
                     notified := false,
                     logged := some (JsError.typeError "form.querySelector is not a function") }] :=
    rfl
  refine ⟨?_, ?_, ?_, ?_, h1, h2, h3, h4, by decide, by decide, by decide, by decide⟩
  · rintro ⟨o, ho, hr⟩
    rw [h1] at ho
    cases ho
    have := hr 1 ⟨"x", "b", ""⟩ rfl (by decide)
    revert this
    decide
  · rintro ⟨o, ho, hr⟩
    rw [h2] at ho
    cases ho
    have := hr 0 ⟨"a\"b", "1", ""⟩ rfl (by decide)
    revert this
    decide
  · rintro ⟨o, ho, hr⟩
    rw [h3] at ho
    cases ho
    have := hr 0 ⟨"__proto__", "1", ""⟩ rfl (by decide)
    revert this
    decide
  · rintro ⟨o, ho, hr⟩
    rw [h4] at ho
    cases ho
    have := hr 1 ⟨"c", "2", ""⟩ rfl (by decide)
    revert this
    decide

/-! ## Debounced search input -/

theorem onePending_fresh (value : String) (nextId : Nat) : OnePending (freshInput value nextId) :=
  ⟨by simp [freshInput], fun tm h => by simp [freshInput] at h⟩

theorem clearTimeout_of_onePending (s : SearchInput) (h : OnePending s) :
    clearTimeout s.searchTimeout s.timers = [] := by
  unfold clearTimeout
  rw [List.filter_eq_nil_iff]
  intro tm htm
  simp [h.2 tm htm]

theorem onePending_inputEvent (t : Nat) (value : String) (s : SearchInput) (h : OnePending s) :
    OnePending (inputEvent t value s) := by
  unfold OnePending inputEvent
  simp only [clearTimeout_of_onePending s h, List.nil_append, List.length_singleton, le_refl,
    List.mem_singleton, true_and]
  intro tm htm
  rw [htm]

theorem onePending_runTimers (now : Nat) (s : SearchInput) (h : OnePending s) :
    OnePending (runTimers now s) := by
  unfold OnePending runTimers
  refine ⟨le_trans (List.length_filter_le _ _) h.1, fun tm htm => ?_⟩
  exact h.2 tm (List.mem_of_mem_filter htm)

theorem onePending_steps (steps : List SearchStep) (s : SearchInput) (h : OnePending s) :
    OnePending (steps.foldl searchStep s) := by
  induction steps generalizing s with
  | nil => exact h
  | cons st rest ih =>
    rw [List.foldl_cons]
    apply ih
    cases st with
    | input t value => exact onePending_inputEvent t value s h
    | timers now => exact onePending_runTimers now s h

theorem runTimers_early (now t : Nat) (v : String) (s : SearchInput) (h : Awaiting s t v)
    (hnow : now < t + 300) : runTimers now s = s := by
  obtain ⟨_, _, id, htm, _⟩ := h
  have hnot : ¬ (t + 300 ≤ now) := by omega
  cases s with
  | mk value searchTimeout timers nextId passes =>
    simp only at htm
    subst htm
    simp [runTimers, List.filter, hnot]

theorem awaiting_first (value0 : String) (nextId : Nat) (e : Nat × String) :
    Awaiting (dispatch (freshInput value0 nextId) e) e.1 e.2 := by
  refine ⟨rfl, ?_, nextId, ?_, rfl⟩
  · simp [dispatch, inputEvent, runTimers, freshInput]
  · simp [dispatch, inputEvent, runTimers, freshInput, clearTimeout]

theorem awaiting_next (s : SearchInput) (t : Nat) (v : String) (e : Nat × String)
    (h : Awaiting s t v) (hlt : e.1 < t + 300) :
    Awaiting (dispatch s e) e.1 e.2 := by
  unfold dispatch
  rw [runTimers_early e.1 t v s h hlt]
  obtain ⟨_, hp, id, htm, hst⟩ := h
  refine ⟨rfl, hp, s.nextId, ?_, rfl⟩
  simp [inputEvent, clearTimeout, htm, hst, List.filter]

theorem awaiting_burst (rest : List (Nat × String)) (a last : Nat × String) (s : SearchInput)
    (h : Awaiting s a.1 a.2) (hrapid : rapid (a :: rest))
    (hlast : (a :: rest).getLast? = some last) :
    Awaiting (burst s rest) last.1 last.2 := by
  induction rest generalizing a s with
  | nil =>
    simp only [List.getLast?_singleton, Option.some.injEq] at hlast
    subst hlast
    exact h
  | cons b rest ih =>
    obtain ⟨_, hlt, hr⟩ := hrapid
    have hlast2 : (b :: rest).getLast? = some last := by
      rw [List.getLast?_cons_cons] at hlast
      exact hlast
    exact ih b (dispatch s b) (awaiting_next s a.1 a.2 b h hlt) hr hlast2

theorem runTimers_idle (now : Nat) (s : SearchInput) (h : s.timers = []) :
    (runTimers now s).timers = [] ∧ (runTimers now s).passes = s.passes := by
  simp [runTimers, h]

theorem runTimers_idle_fold (later : List Nat) (s : SearchInput) (h : s.timers = []) :
    (later.foldl (fun s n => runTimers n s) s).passes = s.passes := by
  induction later generalizing s with
  | nil => rfl
  | cons n rest ih =>
    rw [List.foldl_cons, ih _ (runTimers_idle n s h).1, (runTimers_idle n s h).2]

theorem runTimers_due (now t : Nat) (v : String) (s : SearchInput) (h : Awaiting s t v)
    (hnow : t + 300 ≤ now) :
    (runTimers now s).timers = [] ∧ (runTimers now s).passes = [(now, v)] := by
  obtain ⟨hv, hp, id, htm, _⟩ := h
  simp [runTimers, htm, hp, hv, List.filter, hnow]

/-- C6. From a freshly loaded input, after a non-empty sequence of input
events each less than 300 ms after the one before: no filter pass has run
by any time before the last event plus 300 ms; once that time is reached
exactly one pass has run, with the value the last event left in the
control, and none is added later.  Whatever the steps (input events and
timer runs, in any order and at any times), at most one timer of the
listener is pending. -/
theorem debounce_burst (value0 : String) (nextId : Nat) (events : List (Nat × String))
    (last : Nat × String) (hlast : events.getLast? = some last) (hrapid : rapid events) :
    (∀ now, now < last.1 + 300 →
      (runTimers now (burst (freshInput value0 nextId) events)).passes = []) ∧
    (∀ now, last.1 + 300 ≤ now → ∀ later : List Nat,
      (later.foldl (fun s n => runTimers n s)
        (runTimers now (burst (freshInput value0 nextId) events))).passes = [(now, last.2)]) ∧
    (∀ steps : List SearchStep,
      (steps.foldl searchStep (freshInput value0 nextId)).timers.length ≤ 1) := by
  have haw : Awaiting (burst (freshInput value0 nextId) events) last.1 last.2 := by
    cases events with
    | nil => simp at hlast
    | cons a rest =>
      exact awaiting_burst rest a last _ (awaiting_first value0 nextId a) hrapid hlast
  refine ⟨fun now hnow => ?_, fun now hnow later => ?_, fun steps => ?_⟩
  · rw [runTimers_early now _ _ _ haw hnow]
    exact haw.2.1
  · obtain ⟨h1, h2⟩ := runTimers_due now _ _ _ haw hnow
    rw [runTimers_idle_fold later _ h1, h2]
  · exact (onePending_steps steps _ (onePending_fresh value0 nextId)).1

/-- Witness of C6: three keystrokes 100 and 299 ms apart, then the timer. -/
theorem debounce_burst_witness :
    rapid [(0, "o"), (100, "o+"), (399, "o+ ")] ∧
    (runTimers 698 (burst (freshInput "" 7) [(0, "o"), (100, "o+"), (399, "o+ ")])).passes = [] ∧
    (runTimers 699 (burst (freshInput "" 7) [(0, "o"), (100, "o+"), (399, "o+ ")])).passes
      = [(699, "o+ ")] :=
  ⟨by simp [rapid],
   (debounce_burst "" 7 [(0, "o"), (100, "o+"), (399, "o+ ")] (399, "o+ ") rfl
      (by simp [rapid])).1 698 (by decide),
   (debounce_burst "" 7 [(0, "o"), (100, "o+"), (399, "o+ ")] (399, "o+ ") rfl
      (by simp [rapid])).2.1 699 (by decide) []⟩

end BloodDonation
